import Mathlib

/-!
# Conversation2API: turn validation, fingerprints, response capture and cache

A shallow embedding of `processMessage/processMessage.go`, of the `CaptureWriter`
and the end of a request of `main.go`, and of the cache backends of
`database/bbolt.go` and `database/redis.go`, followed by the properties
established about them.

Conventions of the embedding
* a Go `string` is a Lean `String`, a Go `[]byte` is a `List UInt8`;
* a Go slice of messages is a `List Message`;
* a Go `(T, error)` result is an `Except String T`, a Go `error` result is an
  `Option String`;
* a function that changes a store returns the store afterwards with its result;
* calls into third party libraries (`encoding/json`, `gjson`, the wrapped
  `gin.ResponseWriter`, the cursor of bbolt) are parameters of the embedded
  functions, so that every general statement holds whatever those libraries
  compute; concrete models of them are only used to evaluate the code on
  explicit inputs.
-/

set_option autoImplicit false

namespace Conversation2API

/-! ## processMessage: data model and turn validation -/

/-- The `Message` struct of `processMessage.go`. -/
structure Message where
  Role : String
  Content : String
deriving DecidableEq, Repr

/-- First loop of `validateMessages`:
`for i := 1; i < len(messages); i++ { if messages[i].Role == "system" { return false } }`.
The result is `true` when the loop hits its `return false`. -/
def systemAfterFirst (messages : List Message) : Bool :=
  (messages.drop 1).any (fun m => m.Role == "system")

/-- Second loop of `validateMessages`, run on `messages[startIndex:]` with the
current `expectedRole`; `false` is the early `return false`, `true` means the loop
ran to its end. -/
def alternationLoop : String → List Message → Bool
  | _, [] => true
  | expectedRole, m :: rest =>
    if m.Role != expectedRole then false
    else alternationLoop (if expectedRole == "user" then "assistant" else "user") rest

/-- Role of `messages[i]` (the empty string when `i` is out of range; every use
below is guarded by a length test, as in the source). -/
def roleAt (messages : List Message) (i : Nat) : String :=
  match messages[i]? with
  | some m => m.Role
  | none => ""

/-- The function `validateMessages` of `processMessage.go`. -/
def validateMessages (messages : List Message) : Bool :=
  if messages.length == 0 then false
  else if systemAfterFirst messages then false
  else
    let hasSystem := roleAt messages 0 == "system"
    if hasSystem then
      if messages.length == 1 then false
      else if roleAt messages 1 != "user" then false
      else if !alternationLoop "assistant" (messages.drop 2) then false
      else roleAt messages (messages.length - 1) == "user"
    else
      if roleAt messages 0 != "user" then false
      else if !alternationLoop "assistant" (messages.drop 1) then false
      else roleAt messages (messages.length - 1) == "user"

/-- The messages that follow the optional leading `system` message. -/
def afterSystem (T : List Message) : List Message :=
  if roleAt T 0 = "system" then T.drop 1 else T

/-- The turn-order invariant in the words of the specification: the transcript
is non-empty, a `system` message can only stand at index 0, the messages after
the optional system message read user, assistant, user, ... and the last
message is a `user` message. -/
def TurnOrder (T : List Message) : Prop :=
  T ≠ [] ∧
  (∀ i m, T[i]? = some m → m.Role = "system" → i = 0) ∧
  (∀ j m, (afterSystem T)[j]? = some m →
      m.Role = if j % 2 = 0 then "user" else "assistant") ∧
  (∃ m, T.getLast? = some m ∧ m.Role = "user")

/-- Shorthand for building a message with empty content from a role. -/
def msg (role : String) : Message := ⟨role, ""⟩

/-- The two roles of the alternation, indexed by a boolean. -/
def turnRole (b : Bool) : String := if b then "user" else "assistant"

/-! ## processMessage: fingerprints -/

deriving instance DecidableEq for Except

/-- One round of the generation of the IEEE table of `hash/crc32`
(`simpleMakeTable`): `if crc&1 == 1 { crc = (crc >> 1) ^ poly } else { crc >>= 1 }`
with `poly = 0xedb88320`. -/
def crcRound (crc : Nat) : Nat :=
  if crc &&& 1 = 1 then (crc >>> 1) ^^^ 0xedb88320 else crc >>> 1

/-- Entry `i` of the IEEE table: eight rounds applied to `i`. -/
def ieeeTable (i : Nat) : Nat :=
  crcRound (crcRound (crcRound (crcRound (crcRound (crcRound (crcRound (crcRound i)))))))

/-- The loop of `simpleUpdate`: `crc = tab[byte(crc)^v] ^ (crc >> 8)` for each byte. -/
def crcLoop (crc : Nat) (p : List UInt8) : Nat :=
  p.foldl (fun crc v => ieeeTable ((crc % 256) ^^^ v.toNat) ^^^ (crc >>> 8)) crc

/-- The function `crc32.ChecksumIEEE`: `^crc` on entry (from 0) and on exit, as a
32-bit value. -/
def ChecksumIEEE (data : List UInt8) : Nat :=
  crcLoop 0xffffffff data ^^^ 0xffffffff

/-- The digit table `"0123456789abcdef"` of package `fmt`. -/
def ldigits : List Char := "0123456789abcdef".toList

/-- Digit of the value `d`. -/
def hexDigit (d : Nat) : Char := ldigits.getD d '0'

/-- The conversion loop of `fmt` for base 16, which fills its buffer from the
right: `for u >= 16 { buf[i] = digits[u&0xF]; u >>= 4 }; buf[i] = digits[u]`.
`fuel` bounds the number of rounds (a 64-bit value needs at most 16 digits). -/
def hexLoop : Nat → Nat → List Char → List Char
  | 0, u, buf => hexDigit (u % 16) :: buf
  | fuel + 1, u, buf =>
    if u ≥ 16 then hexLoop fuel (u / 16) (hexDigit (u % 16) :: buf)
    else hexDigit u :: buf

/-- The rendering `fmt.Sprintf("%08x", u)` of an unsigned value: its hexadecimal
digits, padded on the left with zeros up to eight characters. -/
def sprintf08x (u : Nat) : String :=
  let digits := hexLoop 16 u []
  String.mk (List.replicate (8 - digits.length) '0' ++ digits)

/-- Value of a hexadecimal digit character (16 for any other character). -/
def hexDigitValue (c : Char) : Nat := ldigits.indexOf c

/-- Value of a string of hexadecimal digits, read in base 16. -/
def hexValue (s : List Char) : Nat :=
  s.foldl (fun acc c => 16 * acc + hexDigitValue c) 0

/-- The closure `generateCRC20` of `GenerateMessageUniqueTags`, acting on the
string builder `checksums`; `marshal` is `json.Marshal` on a slice of messages. -/
def generateCRC20 (marshal : List Message → Except String (List UInt8))
    (checksums : String) (Message : List Message) : Except String String :=
  match marshal Message with
  | .error err => .error ("json marshal failed: " ++ err)
  | .ok data =>
    let checksums := checksums ++ sprintf08x (ChecksumIEEE data)
    let checksums := checksums ++ "-"
    .ok checksums

/-- The function `GenerateMessageUniqueTags` of `processMessage.go`. -/
def GenerateMessageUniqueTags (marshal : List Message → Except String (List UInt8))
    (previousConversations userMessage : List Message) : Except String String :=
  let checksums := ""
  match generateCRC20 marshal checksums previousConversations with
  | .error err => .error err
  | .ok checksums =>
    let checksums := checksums ++ "-"
    match generateCRC20 marshal checksums userMessage with
    | .error err => .error err
    | .ok checksums => .ok checksums

/-- The closure `generateCRC20` of `GenerateSplitMessageUniqueTags` (it writes no
separator). -/
def splitGenerateCRC20 (marshal : List Message → Except String (List UInt8))
    (checksums : String) (Message : List Message) : Except String String :=
  match marshal Message with
  | .error err => .error ("json marshal failed: " ++ err)
  | .ok data => .ok (checksums ++ sprintf08x (ChecksumIEEE data))

/-- The slice `previousConversations` computed by `GenerateSplitMessageUniqueTags`. -/
def previousConversations (messages : List Message) : List Message :=
  if messages.length ≤ 2 then messages
  else messages.take (messages.length - 2)

/-- The function `GenerateSplitMessageUniqueTags` of `processMessage.go`. -/
def GenerateSplitMessageUniqueTags (marshal : List Message → Except String (List UInt8))
    (messages : List Message) : Except String String :=
  if validateMessages messages then .error "messages format is invalid"
  else
    let checksums := ""
    match splitGenerateCRC20 marshal checksums (previousConversations messages) with
    | .error err => .error err
    | .ok checksums => .ok checksums

/-- The function `GenerateMessage` of `processMessage.go`. -/
def GenerateMessage (messages : List Message) : Except String String :=
  if validateMessages messages then
    .error "messages has consecutive roles or last role is not User"
  else
    let lines := messages.map (fun msg => msg.Role ++ ": " ++ msg.Content)
    .ok (String.intercalate "\n" lines)

/-- The bytes of an ASCII text. -/
def ascii (s : String) : List UInt8 := s.toList.map (fun c => c.toNat.toUInt8)

/-- The prefix of a transcript in the words of the specification: the
transcript without its last two messages when it has more than two messages,
the whole transcript otherwise. -/
def transcriptPrefix (T : List Message) : List Message :=
  if T.length > 2 then T.dropLast.dropLast else T

/-- The tag in the words of the specification: the checksum rendering of the
first list, one separator, the checksum rendering of the second list. -/
def joinedChecksums (marshal : List Message → Except String (List UInt8))
    (previousConversations userMessage : List Message) : Except String String :=
  match marshal previousConversations, marshal userMessage with
  | .ok d1, .ok d2 =>
    .ok (sprintf08x (ChecksumIEEE d1) ++ "-" ++ sprintf08x (ChecksumIEEE d2))
  | .error err, _ => .error err
  | _, .error err => .error err

/-! ## A concrete model of `json.Marshal` on message slices

Used only to evaluate the fingerprint functions on explicit transcripts; the
general statements below take the serializer as a parameter. -/

/-- The escape `\u00XX` that `encoding/json` writes for the byte `b`. -/
def jsonEscapeU00 (b : Nat) : List UInt8 :=
  ascii "\\u00" ++ ascii (String.mk [hexDigit (b / 16), hexDigit (b % 16)])

/-- What `encoding/json` (Go 1.22 and later, with its default HTML escaping)
writes for one character of a string. -/
def jsonEncodeChar (c : Char) : List UInt8 :=
  if c = '"' then ascii "\\\""
  else if c = '\\' then ascii "\\\\"
  else if c = '\n' then ascii "\\n"
  else if c = '\r' then ascii "\\r"
  else if c = '\t' then ascii "\\t"
  else if c.toNat = 8 then ascii "\\b"
  else if c.toNat = 12 then ascii "\\f"
  else if c.toNat < 32 ∨ c = '<' ∨ c = '>' ∨ c = '&' then jsonEscapeU00 c.toNat
  else if c.toNat = 0x2028 then ascii "\\u2028"
  else if c.toNat = 0x2029 then ascii "\\u2029"
  else String.utf8EncodeChar c

/-- A quoted JSON string. -/
def jsonEncodeString (s : String) : List UInt8 :=
  ascii "\"" ++ s.toList.flatMap jsonEncodeChar ++ ascii "\""

/-- One message, fields in declaration order under their `json` tags. -/
def jsonEncodeMessage (m : Message) : List UInt8 :=
  ascii "\x7b\"role\":" ++ jsonEncodeString m.Role ++
    ascii ",\"content\":" ++ jsonEncodeString m.Content ++ ascii "\x7d"

/-- Model of `json.Marshal` on a non-nil slice of messages: the compact array
of the encoded messages. It never fails. -/
def jsonMarshal (messages : List Message) : Except String (List UInt8) :=
  .ok (ascii "[" ++ ((messages.map jsonEncodeMessage).intersperse (ascii ",")).flatten ++ ascii "]")

/-! ## main.go: the capture writer -/

/-- The library calls made by the capture writer. -/
structure Lib where
  /-- The function `bytes.TrimSpace`. -/
  TrimSpace : List UInt8 → List UInt8
  /-- The call `gjson.GetBytes(json, path)`: `some s` when the result `Exists()`,
  with `s` its `String()`; `none` when it does not exist. -/
  GetBytes : List UInt8 → String → Option String

/-- The wrapped `gin.ResponseWriter`, with states of type `σ`. -/
structure GinResponseWriter (σ : Type) where
  /-- The value of `Header().Get("Content-Type")`. -/
  ContentType : σ → String
  /-- The method `Write`: the new state and the returned `(int, error)`. -/
  Write : σ → List UInt8 → σ × (Int × Option String)

/-- The struct `CaptureWriter` of `main.go`. -/
structure CaptureWriter (σ : Type) where
  ResponseWriter : σ
  body : List UInt8
  streamBuffer : List UInt8
  messages : String

/-- The writer built by `CaptureMiddleware` around the state `s` of `c.Writer`. -/
def CaptureWriter.fresh {σ : Type} (s : σ) : CaptureWriter σ :=
  { ResponseWriter := s, body := [], streamBuffer := [], messages := "" }

/-- The function `bytes.Index`: position of the first occurrence of `sep`. -/
def bytesIndex (sep : List UInt8) : List UInt8 → Option Nat
  | [] => if sep.isEmpty then some 0 else none
  | c :: rest =>
    if sep.isPrefixOf (c :: rest) then some 0
    else (bytesIndex sep rest).map (· + 1)

/-- The loop of `genSplit` in package `bytes`:
`m := Index(s, sep); if m < 0 { break }; a[i] = s[:m]; s = s[m+len(sep):]`,
closed by `a[i] = s`. The first argument bounds the number of rounds. -/
def genSplitLoop (sep : List UInt8) : Nat → List UInt8 → List (List UInt8)
  | 0, s => [s]
  | n + 1, s =>
    match bytesIndex sep s with
    | none => [s]
    | some m => s.take m :: genSplitLoop sep n (s.drop (m + sep.length))

/-- The function `bytes.Split(s, sep)` for a non-empty `sep`. The library runs
the loop `Count(s, sep)` times; `len(s)` rounds give the same pieces, since the
loop stops at the first failing `Index` and every round consumes a byte. -/
def bytesSplit (s sep : List UInt8) : List (List UInt8) :=
  genSplitLoop sep s.length s

/-- The function `bytes.HasPrefix`. -/
def bytesHasPrefix (s pre : List UInt8) : Bool := pre.isPrefixOf s

/-- The function `bytes.TrimPrefix`. -/
def bytesTrimPrefix (s pre : List UInt8) : List UInt8 :=
  if bytesHasPrefix s pre then s.drop pre.length else s

/-- The function `strings.HasPrefix`. -/
def stringsHasPrefix (s pre : String) : Bool := pre.toList.isPrefixOf s.toList

/-- The method `NonStreamMiddleware`. -/
def CaptureWriter.NonStreamMiddleware {σ : Type} (lib : Lib) (w : CaptureWriter σ) :
    CaptureWriter σ :=
  match lib.GetBytes w.body "choices.0.choices.message.content" with
  | some result => { w with messages := w.messages ++ result }
  | none => w

/-- The loop over the lines of one event in `StreamMiddleware`, which collects
`jsonData`. -/
def eventJsonData (lib : Lib) (event : List UInt8) : List UInt8 :=
  (bytesSplit event (ascii "\n")).foldl
    (fun jsonData line =>
      let line := lib.TrimSpace line
      if bytesHasPrefix line (ascii "data: ") then
        jsonData ++ bytesTrimPrefix line (ascii "data: ")
      else jsonData)
    []

/-- One round of the loop over the events in `StreamMiddleware`, as a function
of the text in `w.messages`; the two `continue` return the text unchanged. The
`fmt.Printf` of the source is not part of the state. -/
def processEvent (lib : Lib) (messages : String) (event : List UInt8) : String :=
  if event.length == 0 then messages
  else
    let jsonData := eventJsonData lib event
    if jsonData.length == 0 then messages
    else
      match lib.GetBytes jsonData "choices.0.delta.content" with
      | some result => messages ++ result
      | none => messages

/-- The method `StreamMiddleware`: the loop runs over `events[0 .. len(events)-2]`,
then the buffer is reset to `events[len(events)-1]`. -/
def CaptureWriter.StreamMiddleware {σ : Type} (lib : Lib) (w : CaptureWriter σ) :
    CaptureWriter σ :=
  let data := w.streamBuffer
  let events := bytesSplit data (ascii "\n\n")
  let messages := (events.take (events.length - 1)).foldl (processEvent lib) w.messages
  if events.length > 0 then
    { w with messages := messages, streamBuffer := events.getLastD [] }
  else
    { w with messages := messages, streamBuffer := [] }

/-- The capture part of the method `Write`: everything before the final
`return w.ResponseWriter.Write(data)`. -/
def CaptureWriter.capture {σ : Type} (lib : Lib) (contentType : String)
    (w : CaptureWriter σ) (data : List UInt8) : CaptureWriter σ :=
  if stringsHasPrefix contentType "text/event-stream" then
    CaptureWriter.StreamMiddleware lib { w with streamBuffer := w.streamBuffer ++ data }
  else if stringsHasPrefix contentType "application/json" then
    CaptureWriter.NonStreamMiddleware lib { w with body := w.body ++ data }
  else w

/-- The method `Write` of `CaptureWriter`: the writer after the call and the
returned `(int, error)`. -/
def CaptureWriter.Write {σ : Type} (lib : Lib) (rw : GinResponseWriter σ)
    (w : CaptureWriter σ) (data : List UInt8) : CaptureWriter σ × (Int × Option String) :=
  let contentType := rw.ContentType w.ResponseWriter
  let w := CaptureWriter.capture lib contentType w data
  let r := rw.Write w.ResponseWriter data
  ({ w with ResponseWriter := r.1 }, r.2)

/-- The writer after a sequence of calls of `Write`, one per chunk. -/
def CaptureWriter.writeAll {σ : Type} (lib : Lib) (rw : GinResponseWriter σ)
    (w : CaptureWriter σ) (chunks : List (List UInt8)) : CaptureWriter σ :=
  chunks.foldl (fun w c => (CaptureWriter.Write lib rw w c).1) w

/-! ## The assembled text in the words of the specification -/

/-- The delimiter-terminated segments of a payload: the pieces of the payload
cut at the delimiter, without the piece that follows the last delimiter. -/
def completeEvents (P : List UInt8) : List (List UInt8) :=
  (bytesSplit P (ascii "\n\n")).dropLast

/-- The data of a segment: its lines, trimmed of white space; of these the
lines with the prefix `data: `, with the prefix stripped; concatenated. -/
def segmentData (lib : Lib) (segment : List UInt8) : List UInt8 :=
  ((((bytesSplit segment (ascii "\n")).map lib.TrimSpace).filter
    (fun line => bytesHasPrefix line (ascii "data: "))).map
    (fun line => line.drop (ascii "data: ").length)).flatten

/-- The text a segment contributes: the delta-content extracted from its data,
and nothing for a segment that is empty, has no data or has no such content. -/
def segmentText (lib : Lib) (segment : List UInt8) : String :=
  if segment = [] then ""
  else if segmentData lib segment = [] then ""
  else (lib.GetBytes (segmentData lib segment) "choices.0.delta.content").getD ""

/-- The assembled text of a payload: the contributions of its segments in order. -/
def assembledText (lib : Lib) (P : List UInt8) : String :=
  String.join ((completeEvents P).map (segmentText lib))

/-! ## Concrete models of the libraries used by the capture writer

They are used only to evaluate the capture writer on explicit inputs; the
general statements take the libraries as parameters. -/

/-- A downstream writer that records what it is given: its state is the
content type and the chunks written so far; `Write` returns `(len(data), nil)`. -/
def recorder : GinResponseWriter (String × List (List UInt8)) :=
  { ContentType := fun s => s.1
    Write := fun s data => ((s.1, s.2 ++ [data]), ((data.length : Int), none)) }

/-- A fresh capture writer around a recorder whose content type is `text/html`. -/
def htmlWriter : CaptureWriter (String × List (List UInt8)) :=
  CaptureWriter.fresh ("text/html", [])

/-- The table `asciiSpace` of package `bytes`: tab, line feed, vertical tab,
form feed, carriage return, space. -/
def asciiSpace (b : UInt8) : Bool :=
  b == 9 || b == 10 || b == 11 || b == 12 || b == 13 || b == 32

/-- Model of `bytes.TrimSpace` on ASCII input: the leading and trailing
`asciiSpace` bytes are removed. -/
def asciiTrimSpace (s : List UInt8) : List UInt8 :=
  ((s.dropWhile asciiSpace).reverse.dropWhile asciiSpace).reverse

/-- A parsed JSON value; arrays and objects keep their source text. -/
inductive JValue where
  | null
  | bool (b : Bool)
  | number (raw : List UInt8)
  | string (s : List UInt8)
  | array (raw : List UInt8) (items : List JValue)
  | object (raw : List UInt8) (members : List (List UInt8 × JValue))

/-- JSON white space: space, tab, line feed, carriage return. -/
def jsonSpace (b : UInt8) : Bool := b == 32 || b == 9 || b == 10 || b == 13

/-- Reads the characters of a string up to its closing quote; strings with an
escape sequence or a non-ASCII byte are outside the modelled fragment. -/
def readString : List UInt8 → Option (List UInt8 × List UInt8)
  | [] => none
  | c :: rest =>
    if c == 34 then some ([], rest)
    else if c == 92 || c ≥ 128 then none
    else match readString rest with
      | some (s, rest2) => some (c :: s, rest2)
      | none => none

/-- A decimal digit. -/
def isDigit (b : UInt8) : Bool := 48 ≤ b && b ≤ 57

mutual
/-- Parses one JSON value at the head of the input (after white space) and
returns it with the remaining input. -/
def parseValue : Nat → List UInt8 → Option (JValue × List UInt8)
  | 0, _ => none
  | fuel + 1, input =>
    match input.dropWhile jsonSpace with
    | [] => none
    | c :: rest =>
      if c == 34 then
        match readString rest with
        | some (s, rest2) => some (JValue.string s, rest2)
        | none => none
      else if c == 91 then
        match (rest.dropWhile jsonSpace) with
        | [] => none
        | d :: rest2 =>
          if d == 93 then
            some (JValue.array ((c :: rest).take ((c :: rest).length - rest2.length)) [], rest2)
          else
            match parseElements fuel rest with
            | some (items, rest3) =>
              some (JValue.array ((c :: rest).take ((c :: rest).length - rest3.length)) items,
                rest3)
            | none => none
      else if c == 123 then
        match (rest.dropWhile jsonSpace) with
        | [] => none
        | d :: rest2 =>
          if d == 125 then
            some (JValue.object ((c :: rest).take ((c :: rest).length - rest2.length)) [], rest2)
          else
            match parseMembers fuel rest with
            | some (members, rest3) =>
              some (JValue.object ((c :: rest).take ((c :: rest).length - rest3.length))
                members, rest3)
            | none => none
      else if (ascii "true").isPrefixOf (c :: rest) then some (JValue.bool true, rest.drop 3)
      else if (ascii "false").isPrefixOf (c :: rest) then some (JValue.bool false, rest.drop 4)
      else if (ascii "null").isPrefixOf (c :: rest) then some (JValue.null, rest.drop 3)
      else if isDigit c then
        some (JValue.number (c :: rest.takeWhile isDigit), rest.dropWhile isDigit)
      else if c == 45 && (rest.head?.map isDigit == some true) then
        some (JValue.number (c :: rest.takeWhile isDigit), rest.dropWhile isDigit)
      else none
/-- Parses the elements of an array up to and including its closing bracket. -/
def parseElements : Nat → List UInt8 → Option (List JValue × List UInt8)
  | 0, _ => none
  | fuel + 1, input =>
    match parseValue fuel input with
    | none => none
    | some (v, rest) =>
      match rest.dropWhile jsonSpace with
      | [] => none
      | c :: rest2 =>
        if c == 93 then some ([v], rest2)
        else if c == 44 then
          match parseElements fuel rest2 with
          | some (vs, rest3) => some (v :: vs, rest3)
          | none => none
        else none
/-- Parses the members of an object up to and including its closing brace. -/
def parseMembers : Nat → List UInt8 → Option (List (List UInt8 × JValue) × List UInt8)
  | 0, _ => none
  | fuel + 1, input =>
    match input.dropWhile jsonSpace with
    | [] => none
    | q :: afterQuote =>
      if q != 34 then none
      else
        match readString afterQuote with
        | none => none
        | some (key, rest) =>
          match rest.dropWhile jsonSpace with
          | [] => none
          | colon :: rest1 =>
            if colon != 58 then none
            else
              match parseValue fuel rest1 with
              | none => none
              | some (v, rest2) =>
                match rest2.dropWhile jsonSpace with
                | [] => none
                | c :: rest3 =>
                  if c == 125 then some ([(key, v)], rest3)
                  else if c == 44 then
                    match parseMembers fuel rest3 with
                    | some (ms, rest4) => some ((key, v) :: ms, rest4)
                    | none => none
                  else none
end

/-- The text of ASCII bytes. -/
def asciiText (bs : List UInt8) : String := String.mk (bs.map (fun b => Char.ofNat b.toNat))

/-- The components of a dotted path. -/
def pathParts (path : String) : List (List UInt8) :=
  (path.splitOn ".").map ascii

/-- The value of a string of decimal digits, when it is one. -/
def indexOfPart (part : List UInt8) : Option Nat :=
  if part.all isDigit && !part.isEmpty then
    some (part.foldl (fun acc b => 10 * acc + (b.toNat - 48)) 0)
  else none

/-- Follows a path into a value: a component selects the member of that name in
an object and the element of that index in an array. -/
def JValue.lookup : List (List UInt8) → JValue → Option JValue
  | [], v => some v
  | part :: parts, JValue.object _ members =>
    match members.find? (fun kv => kv.1 == part) with
    | some kv => JValue.lookup parts kv.2
    | none => none
  | part :: parts, JValue.array _ items =>
    match indexOfPart part with
    | some i =>
      match items[i]? with
      | some v => JValue.lookup parts v
      | none => none
    | none => none
  | _ :: _, _ => none

/-- The method `String()` of a result of `gjson`. -/
def JValue.text : JValue → String
  | JValue.null => ""
  | JValue.bool true => "true"
  | JValue.bool false => "false"
  | JValue.number raw => asciiText raw
  | JValue.string s => asciiText s
  | JValue.array raw _ => asciiText raw
  | JValue.object raw _ => asciiText raw

/-- Model of `gjson.GetBytes(json, path)` followed by `Exists()` and `String()`,
for the fragment used in the examples: `json` is a well-formed ASCII document
without escape sequences or duplicate member names, whose numbers are integers,
and `path` is made of member names and array indices separated by dots. Text after
the document is ignored, as the library does. -/
def gjsonGetBytes (json : List UInt8) (path : String) : Option String :=
  match parseValue (json.length + 1) json with
  | some (v, _) => (JValue.lookup (pathParts path) v).map JValue.text
  | none => none

/-- The libraries, in their concrete models. -/
def modelLib : Lib := { TrimSpace := asciiTrimSpace, GetBytes := gjsonGetBytes }

/-! ## database: the bbolt backend -/

/-- The struct `entry` of `bbolt.go`; the `Timestamp` is an instant, counted in
nanoseconds. -/
structure entry where
  CRC32 : String
  Timestamp : Int
deriving DecidableEq, Repr

/-- The largest `time.Duration`. -/
def maxDuration : Int := 2 ^ 63 - 1

/-- The smallest `time.Duration`. -/
def minDuration : Int := -(2 ^ 63)

/-- The method `Sub` of `time.Time`: the duration `t - u`, or the largest
(smallest) duration when the difference does not fit. -/
def timeSub (t u : Int) : Int :=
  if t - u > maxDuration then maxDuration
  else if t - u < minDuration then minDuration
  else t - u

/-- The calls `json.Marshal(e)` and `json.Unmarshal(data, &e)` on an `entry`. -/
structure EntryCodec where
  Marshal : entry → Except String (List UInt8)
  Unmarshal : List UInt8 → Except String entry

/-- The struct `BoltConfig` of `struct.go`, without the database handle, which
is passed as the state; durations are counted in nanoseconds. -/
structure BoltConfig where
  BucketName : List UInt8
  Expire : Int
  CleanupInterval : Int

/-- A bucket of bbolt: its key/value pairs in key order. -/
abbrev Bucket := List (List UInt8 × List UInt8)

/-- The database `bc.DB` as the operations see it: the bucket named
`bc.BucketName`, when there is one. -/
structure BoltDB where
  bucket : Option Bucket
deriving DecidableEq, Repr

/-- The errors a transaction can meet outside the code modelled here: the
error of `DB.Begin` and the error of `tx.Commit`, if any. -/
structure TxFaults where
  begin : Option String
  commit : Option String

/-- A transaction that meets no error. -/
def noFaults : TxFaults := { begin := none, commit := none }

/-- The method `Bucket.Get`: the value of a key, when the key is present. -/
def bucketGet (bucket : Bucket) (key : List UInt8) : Option (List UInt8) :=
  bucket.lookup key

/-- The order of keys in a bucket: `bytes.Compare(a, b) < 0`. -/
def bytesLess : List UInt8 → List UInt8 → Bool
  | [], [] => false
  | [], _ :: _ => true
  | _ :: _, [] => false
  | a :: as, b :: bs => a < b || (a == b && bytesLess as bs)

/-- The method `Bucket.Put` on the pairs of the bucket: the value of an existing
key is replaced, a new key is inserted at its place in key order. -/
def bucketPut (key value : List UInt8) : Bucket → Bucket
  | [] => [(key, value)]
  | (k, v) :: rest =>
    if key = k then (key, value) :: rest
    else if bytesLess key k then (key, value) :: (k, v) :: rest
    else (k, v) :: bucketPut key value rest

/-- The errors of `Bucket.Put` for a writable transaction on a bucket without
nested buckets: `ErrKeyRequired`, `ErrKeyTooLarge` and `ErrValueTooLarge`. -/
def putError (key value : List UInt8) : Option String :=
  if key.length = 0 then some "key required"
  else if key.length > 32768 then some "key too large"
  else if value.length > 2147483646 then some "value too large"
  else none

/-- The method `Bucket.Delete` on the pairs of the bucket; a key that is not
present is not an error. -/
def bucketDelete (key : List UInt8) (bucket : Bucket) : Bucket :=
  bucket.filter (fun kv => kv.1 != key)

/-- The conversion `[]byte(s)` of a string: its UTF-8 bytes. -/
def utf8Bytes (s : String) : List UInt8 := s.toList.flatMap String.utf8EncodeChar

/-- The verb `%q` on a bucket name made of printable ASCII characters. -/
def quoteName (name : List UInt8) : String := "\"" ++ asciiText name ++ "\""

/-- The method `read` of `BoltConfig` (`bbolt.go`). -/
def BoltConfig.read (_bc : BoltConfig) (codec : EntryCodec) (faults : TxFaults) (db : BoltDB)
    (conversationID : String) : Except String String :=
  let key := utf8Bytes conversationID
  match faults.begin with
  | some err => .error err
  | none =>
    match db.bucket with
    | none => .error "bucket not found"
    | some bucket =>
      match bucketGet bucket key with
      | none => .ok ""
      | some data =>
        match codec.Unmarshal data with
        | .error err => .error err
        | .ok e => .ok e.CRC32

/-- The method `write` of `BoltConfig` (`bbolt.go`); `now` is the value of
`time.Now()`. The result is the returned error and the database afterwards,
which is the database before unless the transaction commits. -/
def BoltConfig.write (bc : BoltConfig) (codec : EntryCodec) (faults : TxFaults) (now : Int)
    (db : BoltDB) (conversationID crc32 : String) : Option String × BoltDB :=
  let key := utf8Bytes conversationID
  let e : entry := { CRC32 := crc32, Timestamp := now }
  match codec.Marshal e with
  | .error err => (some err, db)
  | .ok data =>
    match faults.begin with
    | some err => (some err, db)
    | none =>
      match db.bucket with
      | none => (some ("bucket " ++ quoteName bc.BucketName ++ " does not exist"), db)
      | some bucket =>
        match putError key data with
        | some err => (some err, db)
        | none =>
          match faults.commit with
          | some err => (some err, db)
          | none => (none, { bucket := some (bucketPut key data bucket) })

/-- The method `deleteIfExpired` of `BoltConfig` (`bbolt.go`); the error of
`bucket.Delete` is discarded by the source. -/
def BoltConfig.deleteIfExpired (bc : BoltConfig) (faults : TxFaults) (db : BoltDB)
    (key : List UInt8) : Option String × BoltDB :=
  match faults.begin with
  | some err => (some err, db)
  | none =>
    match db.bucket with
    | none => (some ("bucket " ++ quoteName bc.BucketName ++ " does not exist"), db)
    | some bucket =>
      match faults.commit with
      | some err => (some err, db)
      | none => (none, { bucket := some (bucketDelete key bucket) })

/-- What a call of `StartCleanup` does. -/
inductive CleanupStart where
  | panics (msg : String)
  | returns
  | startsTask (interval : Int)
deriving DecidableEq, Repr

/-- The method `StartCleanup` of `BoltConfig` (`bbolt.go`): the `go` statement
starts the task that runs `cleanupExpiredEntries` at every tick of a ticker of
period `bc.CleanupInterval`. -/
def BoltConfig.StartCleanup (bc : BoltConfig) : CleanupStart :=
  if bc.Expire < 0 ∨ bc.CleanupInterval < 0 then
    .panics "BBolt Expire and CleanupInterval is not allowed to be negative"
  else if bc.Expire = 0 ∨ bc.CleanupInterval = 0 then .returns
  else .startsTask bc.CleanupInterval

/-- The cursor of bbolt over states of type `σ`: `First` and `Next` give the new
state and the pair under the cursor (`none` for a nil key); `Delete` gives the new
state (its error is discarded by the source). -/
structure CursorOps (σ : Type) where
  First : σ → σ × Option (List UInt8 × List UInt8)
  Next : σ → σ × Option (List UInt8 × List UInt8)
  Delete : σ → σ

/-- The loop of `cleanupExpiredEntries`:
`for k, v := cursor.First(); k != nil; { ... }`, entered with the state of the
cursor and the current `k, v`. On the two paths that end in `continue` the
variables `k, v` keep their values; only the last statement of the body assigns
them. The first argument bounds the number of rounds: the result is `none` when
the loop has not ended within that many rounds. -/
def sweepLoop {σ : Type} (ops : CursorOps σ) (codec : EntryCodec) (now expire : Int) :
    Nat → σ → Option (List UInt8 × List UInt8) → Option σ
  | 0, _, _ => none
  | _ + 1, s, none => some s
  | fuel + 1, s, some (k, v) =>
    match codec.Unmarshal v with
    | .error _ => sweepLoop ops codec now expire fuel (ops.Delete s) (some (k, v))
    | .ok e =>
      if timeSub now e.Timestamp > expire then
        sweepLoop ops codec now expire fuel (ops.Delete s) (some (k, v))
      else
        let r := ops.Next s
        sweepLoop ops codec now expire fuel r.1 r.2

/-- A cursor on the pairs of a bucket: the state is the bucket within the
transaction and the position of the cursor; `Delete` removes the pair under the
cursor. -/
def listCursor : CursorOps (Bucket × Nat) :=
  { First := fun s => ((s.1, 0), s.1[0]?)
    Next := fun s => ((s.1, s.2 + 1), s.1[s.2 + 1]?)
    Delete := fun s => (s.1.eraseIdx s.2, s.2) }

/-- The method `cleanupExpiredEntries` of `BoltConfig` (`bbolt.go`); `now` is the
value of `time.Now()`. The result is `none` when the loop has not ended within
`fuel` rounds, else the returned error and the database afterwards. -/
def BoltConfig.cleanupExpiredEntries (bc : BoltConfig) (codec : EntryCodec)
    (faults : TxFaults) (now : Int) (fuel : Nat) (db : BoltDB) :
    Option (Option String × BoltDB) :=
  match faults.begin with
  | some err => some (some err, db)
  | none =>
    match db.bucket with
    | none => some (some "bucket not found", db)
    | some bucket =>
      let first := listCursor.First (bucket, 0)
      match sweepLoop listCursor codec now bc.Expire fuel first.1 first.2 with
      | none => none
      | some s =>
        match faults.commit with
        | some err => some (some err, db)
        | none => some (none, { bucket := some s.1 })

/-- Whether the body of the loop of `cleanupExpiredEntries` takes one of its two
deleting paths for a stored value: the value does not decode, or the age of the
entry exceeds `expire`. -/
def sweepDeletes (codec : EntryCodec) (now expire : Int) (v : List UInt8) : Bool :=
  match codec.Unmarshal v with
  | .error _ => true
  | .ok e => decide (timeSub now e.Timestamp > expire)

/-- The struct `RedisConfig` of `struct.go`, without the client, whose server
is passed as the state. -/
structure RedisConfig where
  Expire : Int

/-- The keys of a redis server, each with its value. The expiration sent with
a `SET` and the expiry of keys by the server are not modelled: the statements
are about commands that follow each other before any key expires. -/
abbrev RedisStore := List (String × String)

/-- The errors of a redis command: `redis.Nil` or another error. -/
inductive RedisError where
  | Nil
  | other (msg : String)
deriving DecidableEq, Repr

/-- The call `Client.Get(ctx, key).Result()`; `fault` is the error of the
connection, if any. -/
def redisGet (fault : Option String) (store : RedisStore) (key : String) :
    Except RedisError String :=
  match fault with
  | some err => .error (.other err)
  | none =>
    match store.lookup key with
    | none => .error .Nil
    | some val => .ok val

/-- The call `Client.Set(ctx, key, value, expiration).Err()`: the key holds the
value afterwards. What the client makes of `expiration` is not modelled. -/
def redisSet (fault : Option String) (store : RedisStore) (key value : String)
    (_expiration : Int) : Option String × RedisStore :=
  match fault with
  | some err => (some err, store)
  | none => (none, (key, value) :: store.filter (fun kv => kv.1 != key))

/-- The method `read` of `RedisConfig` (`redis.go`). -/
def RedisConfig.read (_rc : RedisConfig) (fault : Option String) (store : RedisStore)
    (conversationID : String) : Except String String :=
  match redisGet fault store conversationID with
  | .error .Nil => .ok ""
  | .error (.other err) => .error err
  | .ok val => .ok val

/-- The method `write` of `RedisConfig` (`redis.go`). -/
def RedisConfig.write (rc : RedisConfig) (fault : Option String) (store : RedisStore)
    (conversationID crc32 : String) : Option String × RedisStore :=
  redisSet fault store conversationID crc32 rc.Expire

/-- The loop that writes the decimal digits of a number in front of a buffer. -/
def decimalLoop : Nat → Nat → List UInt8 → List UInt8
  | 0, u, buf => (48 + u % 10).toUInt8 :: buf
  | fuel + 1, u, buf =>
    if u ≥ 10 then decimalLoop fuel (u / 10) ((48 + u % 10).toUInt8 :: buf)
    else (48 + u).toUInt8 :: buf

/-- The decimal text of an integer. -/
def intText (i : Int) : List UInt8 :=
  if i < 0 then 45 :: decimalLoop 40 i.natAbs [] else decimalLoop 40 i.natAbs []

/-- The integer written by a decimal text. -/
def intOfText (raw : List UInt8) : Option Int :=
  if raw.head? == some 45 then (indexOfPart raw.tail).map (fun n => -(n : Int))
  else (indexOfPart raw).map (fun n => (n : Int))

/-- Stand-in for `json.Marshal` on an `entry`: the object with the members
`crc32` and `timestamp` of the source, the timestamp being written as the
number of its instant (the library writes the instant as RFC 3339 text; the text
of the timestamp plays no part in the code modelled here). -/
def sampleMarshal (e : entry) : Except String (List UInt8) :=
  .ok (ascii "\x7b\"crc32\":" ++ jsonEncodeString e.CRC32 ++ ascii ",\"timestamp\":" ++
    intText e.Timestamp ++ ascii "\x7d")

/-- Stand-in for `json.Unmarshal` into an `entry`, the inverse of
`sampleMarshal`: the input has to be one JSON object, followed by white space
only; a member that is missing leaves the zero value of its field. -/
def sampleUnmarshal (data : List UInt8) : Except String entry :=
  match parseValue (data.length + 1) data with
  | some (JValue.object _ members, rest) =>
    if !rest.all jsonSpace then .error "invalid character after top-level value"
    else
      let crc : Option String :=
        match members.find? (fun kv => kv.1 == ascii "crc32") with
        | none => some ""
        | some (_, JValue.string s) => some (asciiText s)
        | some _ => none
      let ts : Option Int :=
        match members.find? (fun kv => kv.1 == ascii "timestamp") with
        | none => some 0
        | some (_, JValue.number raw) => intOfText raw
        | some _ => none
      match crc, ts with
      | some c, some t => .ok { CRC32 := c, Timestamp := t }
      | _, _ => .error "cannot unmarshal into Go value of type database.entry"
  | _ => .error "invalid JSON for an entry"

/-- The stand-in codec. -/
def sampleCodec : EntryCodec := { Marshal := sampleMarshal, Unmarshal := sampleUnmarshal }

/-- A configuration with a TTL of 50 and a sweep every 10 (nanoseconds). -/
def sampleBolt : BoltConfig :=
  { BucketName := ascii "conversations", Expire := 50, CleanupInterval := 10 }

/-- A database whose bucket is empty. -/
def emptyDB : BoltDB := { bucket := some [] }

/-- The database after a list of sweeps, each given by its faults, its clock
value and a bound on the rounds of its loop: a sweep that returns leaves the
database it returns, a sweep that does not return commits nothing. -/
def runSweeps (bc : BoltConfig) (codec : EntryCodec) :
    List (TxFaults × Int × Nat) → BoltDB → BoltDB
  | [], db => db
  | (faults, now, fuel) :: rest, db =>
    match bc.cleanupExpiredEntries codec faults now fuel db with
    | some (_, db1) => runSweeps bc codec rest db1
    | none => runSweeps bc codec rest db

/-- The pairs stored in the database for a key. -/
def BoltDB.stored (db : BoltDB) (key : List UInt8) : Option (List UInt8) :=
  db.bucket.bind (fun bucket => bucketGet bucket key)

/-- A database that holds an entry for the key `c0`, written at the clock value 7. -/
def dbC0 : BoltDB :=
  { bucket := some [(ascii "c0", ascii "\x7b\"crc32\":\"00000000\",\"timestamp\":7\x7d")] }

/-- The database `dbC0` after `write("c1", "3089d15e")` at the clock value 100. -/
def dbC1 : BoltDB :=
  { bucket := some [(ascii "c0", ascii "\x7b\"crc32\":\"00000000\",\"timestamp\":7\x7d"),
      (ascii "c1", ascii "\x7b\"crc32\":\"3089d15e\",\"timestamp\":100\x7d")] }

/-- A database that holds undecodable bytes for the key `c1` and an entry for
the key `c3`. -/
def dbCorrupt : BoltDB :=
  { bucket := some [(ascii "c1", ascii "not json"),
      (ascii "c3", ascii "\x7b\"crc32\":\"3089d15e\",\"timestamp\":100\x7d")] }

/-- A database with an entry of the clock value 190 for `a`, an entry of the
clock value 100 for `b` and undecodable bytes for `c`. -/
def dbStale : BoltDB :=
  { bucket := some [(ascii "a", ascii "\x7b\"crc32\":\"3089d15e\",\"timestamp\":190\x7d"),
      (ascii "b", ascii "\x7b\"crc32\":\"a41e3364\",\"timestamp\":100\x7d"),
      (ascii "c", ascii "not json")] }

/-- The database `emptyDB` after `write("c1", "3089d15e")` at the clock value 100. -/
def dbW : BoltDB :=
  { bucket := some [(ascii "c1", ascii "\x7b\"crc32\":\"3089d15e\",\"timestamp\":100\x7d")] }


/-! ## main.go: the end of a request -/

/-- Which case of the `select` of `CaptureMiddleware` was taken: `done` was
closed (the handler returned) or the context of the request was cancelled. -/
inductive Outcome where
  | Completed
  | Cancelled
deriving DecidableEq, Repr

/-- The text written before the identifier when the request was cancelled. -/
def fallbackText : String :=
  "我不认为有人会有相同的回答，不过我的朋友，你的连接大抵真的是炸掉了-"

/-- The body of the goroutine of `CaptureMiddleware` once its `select` has
taken a case; `id` is the value of `uuid.NewV4().String()`. The result is the
writer and the slice `messages` afterwards. The two `fmt.Printf` are not part
of the state. -/
def finalize {σ : Type} (outcome : Outcome) (id : String) (cw : CaptureWriter σ)
    (messages : List Message) : CaptureWriter σ × List Message :=
  let cw :=
    match outcome with
    | .Cancelled =>
      let cw := { cw with messages := "" }
      { cw with messages := cw.messages ++ (fallbackText ++ id) }
    | .Completed => cw
  let messages := messages ++ [{ Role := "assistant", Content := cw.messages }]
  ({ cw with messages := "" }, messages)

/-- A writer that has captured the text `partial answer`. -/
def busyWriter : CaptureWriter (String × List (List UInt8)) :=
  { ResponseWriter := ("text/event-stream", []), body := [], streamBuffer := ascii "data: ",
    messages := "partial answer" }


/-! ## Theorems: turn validation -/

theorem turnRole_toggle (b : Bool) :
    (if turnRole b == "user" then "assistant" else "user") = turnRole (!b) := by
  cases b <;> decide

theorem alternationLoop_iff (b : Bool) (l : List Message) :
    alternationLoop (turnRole b) l = true ↔
      ∀ j m, l[j]? = some m → m.Role = turnRole (if j % 2 = 0 then b else !b) := by
  induction l generalizing b with
  | nil => simp [alternationLoop]
  | cons x xs ih =>
    rw [alternationLoop, turnRole_toggle]
    constructor
    · intro h j m hj
      by_cases hx : x.Role = turnRole b
      · simp [hx] at h
        cases j with
        | zero => simp at hj; subst hj; simpa using hx
        | succ k =>
          simp at hj
          have := (ih (!b)).1 h k m hj
          rw [this]
          rcases Nat.mod_two_eq_zero_or_one k with hk | hk
          · have : (k + 1) % 2 = 1 := by omega
            simp [hk, this]
          · have : (k + 1) % 2 = 0 := by omega
            simp [hk, this]
      · simp [hx] at h
    · intro h
      have hx : x.Role = turnRole b := by simpa using h 0 x (by simp)
      simp [hx]
      apply (ih (!b)).2
      intro k m hk
      have := h (k + 1) m (by simpa using hk)
      rw [this]
      rcases Nat.mod_two_eq_zero_or_one k with hk | hk
      · have : (k + 1) % 2 = 1 := by omega
        simp [hk, this]
      · have : (k + 1) % 2 = 0 := by omega
        simp [hk, this]

theorem roleAt_last (T : List Message) (r : String) (hne : T ≠ []) :
    (roleAt T (T.length - 1) == r) = true ↔ ∃ m, T.getLast? = some m ∧ m.Role = r := by
  have hlast : T[T.length - 1]? = T.getLast? := by
    rw [List.getLast?_eq_getElem?]
  have hlt : T.length - 1 < T.length := by
    have := List.length_pos.2 hne
    omega
  unfold roleAt
  rw [hlast]
  cases h : T.getLast? with
  | none => simp [List.getLast?_eq_none_iff] at h; exact absurd h hne
  | some m => simp

/-- The code of `validateMessages`, with its branches merged: both branches run
the alternation loop, started at `user`, over the messages after the optional
system message. -/
theorem validateMessages_iff_loop (T : List Message) :
    validateMessages T = true ↔
      T ≠ [] ∧ systemAfterFirst T = false ∧
      alternationLoop "user" (afterSystem T) = true ∧
      (roleAt T (T.length - 1) == "user") = true := by
  cases T with
  | nil => simp [validateMessages]
  | cons m0 rest =>
    by_cases hs : m0.Role = "system"
    · cases rest with
      | nil =>
        simp [validateMessages, systemAfterFirst, afterSystem, roleAt, hs]
      | cons m1 rest2 =>
        by_cases h1 : m1.Role = "user"
        · simp [validateMessages, systemAfterFirst, afterSystem, roleAt, hs, h1,
            alternationLoop]
        · simp [validateMessages, systemAfterFirst, afterSystem, roleAt, hs, h1,
            alternationLoop]
    · by_cases hu : m0.Role = "user"
      · simp [validateMessages, systemAfterFirst, afterSystem, roleAt, hs, hu,
          alternationLoop]
      · simp [validateMessages, systemAfterFirst, afterSystem, roleAt, hs, hu,
          alternationLoop]

theorem systemAfterFirst_iff (T : List Message) :
    systemAfterFirst T = false ↔ ∀ i m, T[i]? = some m → m.Role = "system" → i = 0 := by
  cases T with
  | nil => simp [systemAfterFirst]
  | cons m0 rest =>
    simp only [systemAfterFirst, List.drop_succ_cons, List.drop_zero]
    constructor
    · intro h i m hi hm
      cases i with
      | zero => rfl
      | succ k =>
        exfalso
        simp at hi
        have hmem : m ∈ rest := List.getElem?_mem hi
        have : rest.any (fun m => m.Role == "system") = true :=
          List.any_eq_true.2 ⟨m, hmem, by simp [hm]⟩
        rw [h] at this
        exact Bool.false_ne_true this
    · intro h
      rw [Bool.eq_false_iff]
      intro hany
      obtain ⟨m, hmem, hm⟩ := List.any_eq_true.1 hany
      obtain ⟨k, hk⟩ := List.getElem?_of_mem hmem
      have := h (k + 1) m (by simpa using hk) (by simpa using hm)
      omega

/-- C1: `validateMessages T` is true exactly when `T` is non-empty, a `system`
message occurs only at index 0, the messages after the optional system message
have the roles user, assistant, user, ... and the last message is a `user`
message; the listed transcripts are accepted resp. rejected. -/
theorem validateMessages_iff_turnOrder :
    (∀ T : List Message, validateMessages T = true ↔ TurnOrder T) ∧
    validateMessages [msg "user", msg "assistant", msg "user"] = true ∧
    validateMessages [msg "system", msg "user", msg "assistant", msg "user"] = true ∧
    validateMessages [] = false ∧
    validateMessages [msg "system"] = false ∧
    validateMessages [msg "user", msg "user"] = false ∧
    (∀ rest : List Message,
      validateMessages (msg "system" :: msg "assistant" :: rest) = false) := by
  refine ⟨?_, by decide, by decide, by decide, by decide, by decide, ?_⟩
  · intro T
    rw [validateMessages_iff_loop, TurnOrder]
    constructor
    · rintro ⟨hne, hsys, halt, hlast⟩
      refine ⟨hne, (systemAfterFirst_iff T).1 hsys, ?_, (roleAt_last T "user" hne).1 hlast⟩
      intro j m hj
      have := (alternationLoop_iff true (afterSystem T)).1 halt j m hj
      rw [this]
      by_cases hj2 : j % 2 = 0 <;> simp [hj2, turnRole]
    · rintro ⟨hne, hsys, halt, hlast⟩
      refine ⟨hne, (systemAfterFirst_iff T).2 hsys, ?_, (roleAt_last T "user" hne).2 hlast⟩
      apply (alternationLoop_iff true (afterSystem T)).2
      intro j m hj
      rw [halt j m hj]
      by_cases hj2 : j % 2 = 0 <;> simp [hj2, turnRole]
  · intro rest
    simp [validateMessages, systemAfterFirst, roleAt, msg]

/-! ## Theorems: fingerprints -/

/-- The embedding of `crc32.ChecksumIEEE` reproduces the standard check value
of CRC-32/IEEE: the checksum of the text `123456789` is `cbf43926`. -/
theorem ChecksumIEEE_check_value :
    ChecksumIEEE (ascii "123456789") = 0xcbf43926 ∧
    sprintf08x (ChecksumIEEE (ascii "123456789")) = "cbf43926" := by
  constructor <;> decide!

theorem sprintf08x_examples :
    sprintf08x 0 = "00000000" ∧ sprintf08x 0x1f = "0000001f" ∧
    sprintf08x 0xffffffff = "ffffffff" ∧ hexValue "0000001f".toList = 31 := by
  refine ⟨?_, ?_, ?_, ?_⟩ <;> decide!

theorem crcRound_lt (crc : Nat) (h : crc < 2 ^ 32) : crcRound crc < 2 ^ 32 := by
  unfold crcRound
  have h1 : crc >>> 1 < 2 ^ 32 := by
    rw [Nat.shiftRight_eq_div_pow]
    exact lt_of_le_of_lt (Nat.div_le_self _ _) h
  split
  · exact Nat.xor_lt_two_pow h1 (by norm_num)
  · exact h1

theorem ieeeTable_lt (i : Nat) (h : i < 2 ^ 32) : ieeeTable i < 2 ^ 32 := by
  unfold ieeeTable
  repeat apply crcRound_lt
  exact h

theorem crcLoop_lt (p : List UInt8) (crc : Nat) (h : crc < 2 ^ 32) :
    crcLoop crc p < 2 ^ 32 := by
  unfold crcLoop
  induction p generalizing crc with
  | nil => simpa using h
  | cons v vs ih =>
    rw [List.foldl_cons]
    apply ih
    have hv : v.toNat < 2 ^ 8 := v.val.isLt
    have h1 : crc % 256 ^^^ v.toNat < 2 ^ 8 :=
      Nat.xor_lt_two_pow (Nat.mod_lt _ (by norm_num)) hv
    have h2 : crc >>> 8 < 2 ^ 32 := by
      rw [Nat.shiftRight_eq_div_pow]
      exact lt_of_le_of_lt (Nat.div_le_self _ _) h
    exact Nat.xor_lt_two_pow (ieeeTable_lt _ (lt_trans h1 (by norm_num))) h2

/-- The checksum is a 32-bit value. -/
theorem ChecksumIEEE_lt (data : List UInt8) : ChecksumIEEE data < 2 ^ 32 := by
  unfold ChecksumIEEE
  exact Nat.xor_lt_two_pow (crcLoop_lt data _ (by norm_num)) (by norm_num)

theorem hexDigit_mem (d : Nat) : hexDigit d ∈ ldigits := by
  unfold hexDigit
  by_cases h : d < ldigits.length
  · rw [List.getD_eq_getElem _ _ h]
    exact List.getElem_mem h
  · rw [List.getD_eq_default _ _ (by omega)]
    decide

theorem hexDigitValue_hexDigit (d : Nat) (h : d < 16) : hexDigitValue (hexDigit d) = d := by
  interval_cases d <;> decide

theorem hexValue_append (l1 l2 : List Char) :
    hexValue (l1 ++ l2) = hexValue l1 * 16 ^ l2.length + hexValue l2 := by
  induction l2 using List.reverseRecOn with
  | nil => simp [hexValue]
  | append_singleton l c ih =>
    have e : l1 ++ (l ++ [c]) = (l1 ++ l) ++ [c] := by simp
    have h1 : hexValue ((l1 ++ l) ++ [c]) = 16 * hexValue (l1 ++ l) + hexDigitValue c := by
      simp [hexValue, List.foldl_append]
    have h2 : hexValue (l ++ [c]) = 16 * hexValue l + hexDigitValue c := by
      simp [hexValue, List.foldl_append]
    rw [e, h1, h2, ih]
    simp [pow_succ]
    ring

/-- What the conversion loop leaves in front of the buffer: the digits of `u`. -/
theorem hexLoop_spec (fuel : Nat) : ∀ (u : Nat) (buf : List Char), u < 16 ^ (fuel + 1) →
    ∃ ds : List Char, hexLoop fuel u buf = ds ++ buf ∧ hexValue ds = u ∧
      1 ≤ ds.length ∧ (∀ k, 1 ≤ k → u < 16 ^ k → ds.length ≤ k) ∧
      ∀ c ∈ ds, c ∈ ldigits := by
  induction fuel with
  | zero =>
    intro u buf hu
    have hu16 : u < 16 := by simpa using hu
    refine ⟨[hexDigit (u % 16)], by simp [hexLoop], ?_, by simp, ?_, ?_⟩
    · rw [Nat.mod_eq_of_lt hu16]
      simp [hexValue, hexDigitValue_hexDigit u hu16]
    · intro k hk _; simpa using hk
    · intro c hc
      simp at hc
      rw [hc]; exact hexDigit_mem _
  | succ n ih =>
    intro u buf hu
    by_cases h16 : u ≥ 16
    · have hdiv : u / 16 < 16 ^ (n + 1) := by
        rw [Nat.div_lt_iff_lt_mul (by norm_num)]
        rw [pow_succ] at hu
        exact hu
      obtain ⟨ds, hds, hval, hlen, hk, hc⟩ := ih (u / 16) (hexDigit (u % 16) :: buf) hdiv
      refine ⟨ds ++ [hexDigit (u % 16)], ?_, ?_, by simp, ?_, ?_⟩
      · simp [hexLoop, h16, hds]
      · rw [hexValue_append, hval]
        simp [hexValue, hexDigitValue_hexDigit (u % 16) (Nat.mod_lt _ (by norm_num))]
        omega
      · intro k hk1 huk
        cases k with
        | zero => omega
        | succ k' =>
          cases k' with
          | zero => simp at huk; omega
          | succ k'' =>
            have : u / 16 < 16 ^ (k'' + 1) := by
              rw [Nat.div_lt_iff_lt_mul (by norm_num)]
              rw [pow_succ] at huk
              exact huk
            have := hk (k'' + 1) (by omega) this
            simp
            omega
      · intro c hcm
        rcases List.mem_append.1 hcm with h | h
        · exact hc c h
        · simp at h
          rw [h]; exact hexDigit_mem _
    · have hu16 : u < 16 := by omega
      refine ⟨[hexDigit u], by simp [hexLoop, h16], ?_, by simp, ?_, ?_⟩
      · simp [hexValue, hexDigitValue_hexDigit u hu16]
      · intro k hk _; simpa using hk
      · intro c hc
        simp at hc
        rw [hc]; exact hexDigit_mem _

theorem hexValue_replicate_zero (n : Nat) : hexValue (List.replicate n '0') = 0 := by
  induction n with
  | zero => rfl
  | succ n ih =>
    rw [List.replicate_succ', hexValue_append, ih]
    decide

/-- The rendering of a 32-bit value: eight characters, all of them lower-case
hexadecimal digits, whose base-16 value is the value rendered. -/
theorem sprintf08x_spec (u : Nat) (hu : u < 2 ^ 32) :
    (sprintf08x u).length = 8 ∧ (∀ c ∈ (sprintf08x u).toList, c ∈ ldigits) ∧
    hexValue (sprintf08x u).toList = u := by
  obtain ⟨ds, hds, hval, hlen, hk, hc⟩ :=
    hexLoop_spec 16 u [] (lt_trans hu (by norm_num))
  have h8 : ds.length ≤ 8 := hk 8 (by norm_num) (lt_of_lt_of_le hu (by norm_num))
  simp only [List.append_nil] at hds
  have hs : sprintf08x u = String.mk (List.replicate (8 - ds.length) '0' ++ ds) := by
    simp [sprintf08x, hds]
  rw [hs]
  refine ⟨?_, ?_, ?_⟩
  · simp [String.length]
    omega
  · intro c hcm
    simp only [String.toList] at hcm
    rcases List.mem_append.1 hcm with h | h
    · rw [(List.mem_replicate.1 h).2]; decide
    · exact hc c h
  · simp only [String.toList]
    rw [hexValue_append, hexValue_replicate_zero, hval]
    simp

/-- Distinct 32-bit values have distinct renderings. -/
theorem sprintf08x_injective (a b : Nat) (ha : a < 2 ^ 32) (hb : b < 2 ^ 32)
    (h : sprintf08x a = sprintf08x b) : a = b := by
  rw [← (sprintf08x_spec a ha).2.2, ← (sprintf08x_spec b hb).2.2, h]

theorem previousConversations_eq_transcriptPrefix (T : List Message) :
    previousConversations T = transcriptPrefix T := by
  unfold previousConversations transcriptPrefix
  by_cases h : T.length ≤ 2
  · have h' : ¬ T.length > 2 := by omega
    simp [h, h']
  · have h' : T.length > 2 := by omega
    simp only [h, h', if_true, if_false]
    rw [List.dropLast_eq_take, List.dropLast_eq_take, List.take_take]
    congr 1
    simp
    omega

/-- What a successful call of `GenerateSplitMessageUniqueTags` returns. -/
theorem GenerateSplitMessageUniqueTags_ok
    (marshal : List Message → Except String (List UInt8)) (T : List Message) (fp : String)
    (h : GenerateSplitMessageUniqueTags marshal T = .ok fp) :
    ∃ data, marshal (previousConversations T) = .ok data ∧
      fp = sprintf08x (ChecksumIEEE data) := by
  unfold GenerateSplitMessageUniqueTags at h
  by_cases hv : validateMessages T = true
  · simp [hv] at h
  · simp only [hv, Bool.false_eq_true, if_false, splitGenerateCRC20] at h
    cases hm : marshal (previousConversations T) with
    | error e => simp [hm] at h
    | ok data =>
      refine ⟨data, rfl, ?_⟩
      simp [hm] at h
      rw [← h]

/-- C2, the code at the inputs of the claim: the valid transcript
[user, assistant, user] is answered with the error by both operations, and the
invalid transcript [user, user] is answered with a result; in general
`GenerateMessage` returns a result exactly when validation fails. -/
theorem transcript_operations_reject_valid :
    GenerateSplitMessageUniqueTags jsonMarshal
        [⟨"user", "hi"⟩, ⟨"assistant", "yo"⟩, ⟨"user", "ok"⟩]
      = .error "messages format is invalid" ∧
    GenerateMessage [⟨"user", "hi"⟩, ⟨"assistant", "yo"⟩, ⟨"user", "ok"⟩]
      = .error "messages has consecutive roles or last role is not User" ∧
    GenerateSplitMessageUniqueTags jsonMarshal [⟨"user", "a"⟩, ⟨"user", "b"⟩]
      = .ok "3089d15e" ∧
    GenerateMessage [⟨"user", "a"⟩, ⟨"user", "b"⟩] = .ok "user: a\nuser: b" ∧
    (∀ T : List Message, (GenerateMessage T).toBool = !validateMessages T) ∧
    (∀ (marshal : List Message → Except String (List UInt8)) (T : List Message),
      (GenerateSplitMessageUniqueTags marshal T).toBool =
        (!validateMessages T && (marshal (previousConversations T)).toBool)) := by
  refine ⟨by decide!, by decide!, by decide!, by decide!, ?_, ?_⟩
  · intro T
    unfold GenerateMessage
    cases validateMessages T <;> simp [Except.toBool]
  · intro marshal T
    unfold GenerateSplitMessageUniqueTags splitGenerateCRC20
    cases validateMessages T
    · cases marshal (previousConversations T) <;> simp [Except.toBool]
    · simp [Except.toBool]

/-- C3: a fingerprint returned by `GenerateSplitMessageUniqueTags` is the
checksum rendering of the serialization of the transcript prefix (all but the
last two messages when there are more than two, else the whole transcript); so
two transcripts on which it succeeds and whose prefixes serialize to the same
bytes get the same fingerprint. -/
theorem fingerprint_of_prefix
    (marshal : List Message → Except String (List UInt8)) (T1 T2 : List Message)
    (fp1 fp2 : String)
    (h1 : GenerateSplitMessageUniqueTags marshal T1 = .ok fp1)
    (h2 : GenerateSplitMessageUniqueTags marshal T2 = .ok fp2) :
    (∃ data, marshal (transcriptPrefix T1) = .ok data ∧
      fp1 = sprintf08x (ChecksumIEEE data)) ∧
    (marshal (transcriptPrefix T1) = marshal (transcriptPrefix T2) → fp1 = fp2) := by
  obtain ⟨d1, hd1, hf1⟩ := GenerateSplitMessageUniqueTags_ok marshal T1 fp1 h1
  obtain ⟨d2, hd2, hf2⟩ := GenerateSplitMessageUniqueTags_ok marshal T2 fp2 h2
  rw [previousConversations_eq_transcriptPrefix] at hd1 hd2
  refine ⟨⟨d1, hd1, hf1⟩, ?_⟩
  intro heq
  rw [hd1, hd2] at heq
  have : d1 = d2 := by injection heq
  rw [hf1, hf2, this]

/-- Witness of C3: two transcripts of four messages that differ only in their
last two messages. -/
theorem fingerprint_of_prefix_witness :
    GenerateSplitMessageUniqueTags jsonMarshal
        [⟨"user", "q1"⟩, ⟨"user", "q2"⟩, ⟨"assistant", "a1"⟩, ⟨"user", "u1"⟩]
      = .ok "1acd2a06" ∧
    GenerateSplitMessageUniqueTags jsonMarshal
        [⟨"user", "q1"⟩, ⟨"user", "q2"⟩, ⟨"assistant", "a2"⟩, ⟨"user", "u2"⟩]
      = .ok "1acd2a06" ∧
    ((∃ data, jsonMarshal (transcriptPrefix
        [⟨"user", "q1"⟩, ⟨"user", "q2"⟩, ⟨"assistant", "a1"⟩, ⟨"user", "u1"⟩]) = .ok data ∧
      "1acd2a06" = sprintf08x (ChecksumIEEE data)) ∧
    (jsonMarshal (transcriptPrefix
        [⟨"user", "q1"⟩, ⟨"user", "q2"⟩, ⟨"assistant", "a1"⟩, ⟨"user", "u1"⟩]) =
      jsonMarshal (transcriptPrefix
        [⟨"user", "q1"⟩, ⟨"user", "q2"⟩, ⟨"assistant", "a2"⟩, ⟨"user", "u2"⟩]) →
      "1acd2a06" = "1acd2a06")) :=
  ⟨by decide!, by decide!,
   fingerprint_of_prefix jsonMarshal
    [⟨"user", "q1"⟩, ⟨"user", "q2"⟩, ⟨"assistant", "a1"⟩, ⟨"user", "u1"⟩]
    [⟨"user", "q1"⟩, ⟨"user", "q2"⟩, ⟨"assistant", "a2"⟩, ⟨"user", "u2"⟩]
    "1acd2a06" "1acd2a06" (by decide!) (by decide!)⟩

/-- C4: a fingerprint returned by `GenerateSplitMessageUniqueTags` has exactly
eight characters, each one of `0123456789abcdef`; it is the `%08x` rendering of
the CRC-32 (IEEE) of the serialization of the transcript prefix (the transcript
without its last two messages when it has more than two, else the whole
transcript), a 32-bit value which is also the base-16 value of the fingerprint;
distinct 32-bit values render differently. -/
theorem fingerprint_format
    (marshal : List Message → Except String (List UInt8)) (T : List Message) (fp : String)
    (h : GenerateSplitMessageUniqueTags marshal T = .ok fp) :
    fp.length = 8 ∧ (∀ c ∈ fp.toList, c ∈ "0123456789abcdef".toList) ∧
    (∃ data, marshal (transcriptPrefix T) = .ok data ∧
      fp = sprintf08x (ChecksumIEEE data) ∧ ChecksumIEEE data < 2 ^ 32 ∧
      hexValue fp.toList = ChecksumIEEE data) ∧
    (∀ a b : Nat, a < 2 ^ 32 → b < 2 ^ 32 → a ≠ b → sprintf08x a ≠ sprintf08x b) := by
  obtain ⟨data, hd, hf⟩ := GenerateSplitMessageUniqueTags_ok marshal T fp h
  obtain ⟨hlen, hch, hval⟩ := sprintf08x_spec (ChecksumIEEE data) (ChecksumIEEE_lt data)
  rw [previousConversations_eq_transcriptPrefix] at hd
  subst hf
  refine ⟨hlen, hch, ⟨data, hd, rfl, ChecksumIEEE_lt data, hval⟩, ?_⟩
  intro a b ha hb hab heq
  exact hab (sprintf08x_injective a b ha hb heq)

/-- Witness of C4: the transcript [assistant "hello", user "x", user "y"], whose
prefix is [assistant "hello"]: the fingerprint `a41e3364` is the checksum of the
serialization of that prefix, not of the whole transcript (`9a1bf060`). -/
theorem fingerprint_format_witness :
    GenerateSplitMessageUniqueTags jsonMarshal
        [⟨"assistant", "hello"⟩, ⟨"user", "x"⟩, ⟨"user", "y"⟩] = .ok "a41e3364" ∧
    ("a41e3364".length = 8 ∧ (∀ c ∈ "a41e3364".toList, c ∈ "0123456789abcdef".toList) ∧
    (∃ data, jsonMarshal (transcriptPrefix
          [⟨"assistant", "hello"⟩, ⟨"user", "x"⟩, ⟨"user", "y"⟩]) = .ok data ∧
      "a41e3364" = sprintf08x (ChecksumIEEE data) ∧ ChecksumIEEE data < 2 ^ 32 ∧
      hexValue "a41e3364".toList = ChecksumIEEE data) ∧
    (∀ a b : Nat, a < 2 ^ 32 → b < 2 ^ 32 → a ≠ b → sprintf08x a ≠ sprintf08x b)) ∧
    transcriptPrefix [⟨"assistant", "hello"⟩, ⟨"user", "x"⟩, ⟨"user", "y"⟩] =
      [⟨"assistant", "hello"⟩] ∧
    jsonMarshal (transcriptPrefix [⟨"assistant", "hello"⟩, ⟨"user", "x"⟩, ⟨"user", "y"⟩]) =
      .ok (ascii "[\x7b\"role\":\"assistant\",\"content\":\"hello\"\x7d]") ∧
    ChecksumIEEE (ascii "[\x7b\"role\":\"assistant\",\"content\":\"hello\"\x7d]") = 0xa41e3364 ∧
    (jsonMarshal [⟨"assistant", "hello"⟩, ⟨"user", "x"⟩, ⟨"user", "y"⟩]).map
        (fun data => sprintf08x (ChecksumIEEE data)) = .ok "9a1bf060" :=
  ⟨by decide!,
   fingerprint_format jsonMarshal [⟨"assistant", "hello"⟩, ⟨"user", "x"⟩, ⟨"user", "y"⟩]
     "a41e3364" (by decide!),
   by decide!, by decide!, by decide!, by decide!⟩

/-- C5 as stated fails: for the lists [user "hi"] and [assistant "yo", user "ok"]
the code returns `bbd31023--459643bd-`, with two separators between the checksums
and one after the second, not `bbd31023-459643bd`. -/
theorem GenerateMessageUniqueTags_not_joined_once :
    GenerateMessageUniqueTags jsonMarshal [⟨"user", "hi"⟩]
        [⟨"assistant", "yo"⟩, ⟨"user", "ok"⟩] = .ok "bbd31023--459643bd-" ∧
    joinedChecksums jsonMarshal [⟨"user", "hi"⟩]
        [⟨"assistant", "yo"⟩, ⟨"user", "ok"⟩] = .ok "bbd31023-459643bd" ∧
    GenerateMessageUniqueTags jsonMarshal [⟨"user", "hi"⟩]
        [⟨"assistant", "yo"⟩, ⟨"user", "ok"⟩] ≠
      joinedChecksums jsonMarshal [⟨"user", "hi"⟩] [⟨"assistant", "yo"⟩, ⟨"user", "ok"⟩] := by
  refine ⟨by decide!, by decide!, by decide!⟩

/-- C5 amended: when both lists serialize (to `d1` and `d2`),
`GenerateMessageUniqueTags` returns without error the 8-digit hex checksum of the
first list, two separators, the 8-digit hex checksum of the second list and one
trailing separator: 19 characters in all. -/
theorem GenerateMessageUniqueTags_format
    (marshal : List Message → Except String (List UInt8))
    (previousConversations userMessage : List Message) (d1 d2 : List UInt8)
    (h1 : marshal previousConversations = .ok d1) (h2 : marshal userMessage = .ok d2) :
    GenerateMessageUniqueTags marshal previousConversations userMessage =
      .ok (sprintf08x (ChecksumIEEE d1) ++ "-" ++ "-" ++ sprintf08x (ChecksumIEEE d2) ++ "-") ∧
    (sprintf08x (ChecksumIEEE d1)).length = 8 ∧ (sprintf08x (ChecksumIEEE d2)).length = 8 ∧
    (sprintf08x (ChecksumIEEE d1) ++ "-" ++ "-" ++ sprintf08x (ChecksumIEEE d2) ++ "-").length
      = 19 := by
  have l1 := (sprintf08x_spec (ChecksumIEEE d1) (ChecksumIEEE_lt d1)).1
  have l2 := (sprintf08x_spec (ChecksumIEEE d2) (ChecksumIEEE_lt d2)).1
  refine ⟨?_, l1, l2, ?_⟩
  · simp [GenerateMessageUniqueTags, generateCRC20, h1, h2]
  · simp only [String.length_append, l1, l2]
    rfl

/-- Witness of the amended C5, on the lists [user "a"; user "b"] and
[assistant "hello"], whose tag is `3089d15e--a41e3364-`. -/
theorem GenerateMessageUniqueTags_format_witness :
    jsonMarshal [⟨"user", "a"⟩, ⟨"user", "b"⟩] = .ok (ascii
      "[\x7b\"role\":\"user\",\"content\":\"a\"\x7d,\x7b\"role\":\"user\",\"content\":\"b\"\x7d]") ∧
    jsonMarshal [⟨"assistant", "hello"⟩] = .ok (ascii
      "[\x7b\"role\":\"assistant\",\"content\":\"hello\"\x7d]") ∧
    (GenerateMessageUniqueTags jsonMarshal [⟨"user", "a"⟩, ⟨"user", "b"⟩]
        [⟨"assistant", "hello"⟩] =
      .ok (sprintf08x (ChecksumIEEE (ascii
            "[\x7b\"role\":\"user\",\"content\":\"a\"\x7d,\x7b\"role\":\"user\",\"content\":\"b\"\x7d]"))
          ++ "-" ++ "-" ++
          sprintf08x (ChecksumIEEE (ascii "[\x7b\"role\":\"assistant\",\"content\":\"hello\"\x7d]"))
          ++ "-") ∧
    (sprintf08x (ChecksumIEEE (ascii
      "[\x7b\"role\":\"user\",\"content\":\"a\"\x7d,\x7b\"role\":\"user\",\"content\":\"b\"\x7d]"))).length
      = 8 ∧
    (sprintf08x (ChecksumIEEE (ascii
      "[\x7b\"role\":\"assistant\",\"content\":\"hello\"\x7d]"))).length = 8 ∧
    (sprintf08x (ChecksumIEEE (ascii
        "[\x7b\"role\":\"user\",\"content\":\"a\"\x7d,\x7b\"role\":\"user\",\"content\":\"b\"\x7d]"))
      ++ "-" ++ "-" ++
      sprintf08x (ChecksumIEEE (ascii "[\x7b\"role\":\"assistant\",\"content\":\"hello\"\x7d]"))
      ++ "-").length = 19) ∧
    GenerateMessageUniqueTags jsonMarshal [⟨"user", "a"⟩, ⟨"user", "b"⟩]
        [⟨"assistant", "hello"⟩] = .ok "3089d15e--a41e3364-" :=
  ⟨by decide!, by decide!,
   GenerateMessageUniqueTags_format jsonMarshal [⟨"user", "a"⟩, ⟨"user", "b"⟩]
    [⟨"assistant", "hello"⟩] _ _ (by decide!) (by decide!),
   by decide!⟩

/-! ## Theorems: splitting on a separator -/

theorem isPrefixOf_append_of_le (sep s b : List UInt8) (h : sep.length ≤ s.length) :
    sep.isPrefixOf (s ++ b) = sep.isPrefixOf s := by
  rw [Bool.eq_iff_iff, List.isPrefixOf_iff_prefix, List.isPrefixOf_iff_prefix,
    List.prefix_iff_eq_take, List.prefix_iff_eq_take, List.take_append_of_le_length h]

theorem bytesIndex_bound (sep : List UInt8) :
    ∀ (s : List UInt8) (m : Nat), bytesIndex sep s = some m → m + sep.length ≤ s.length := by
  intro s
  induction s with
  | nil =>
    intro m h
    cases sep with
    | nil => simp [bytesIndex] at h; simp [← h]
    | cons c cs => simp [bytesIndex] at h
  | cons c rest ih =>
    intro m h
    rw [bytesIndex] at h
    by_cases hp : sep.isPrefixOf (c :: rest) = true
    · simp only [hp, if_true] at h
      have hm : m = 0 := by injection h with h; exact h.symm
      have := (List.isPrefixOf_iff_prefix.1 hp).length_le
      omega
    · simp only [hp] at h
      cases hr : bytesIndex sep rest with
      | none => simp [hr] at h
      | some k =>
        simp [hr] at h
        have := ih k hr
        simp
        omega

theorem bytesIndex_append (sep : List UInt8) (hsep : sep ≠ []) :
    ∀ (s b : List UInt8) (m : Nat), bytesIndex sep s = some m →
      bytesIndex sep (s ++ b) = some m := by
  intro s
  induction s with
  | nil =>
    intro b m h
    cases sep with
    | nil => exact absurd rfl hsep
    | cons c cs => simp [bytesIndex] at h
  | cons c rest ih =>
    intro b m h
    have hb := bytesIndex_bound sep (c :: rest) m h
    have hlen : sep.length ≤ (c :: rest).length := by omega
    rw [bytesIndex] at h
    rw [List.cons_append, bytesIndex, ← List.cons_append, isPrefixOf_append_of_le sep _ b hlen]
    by_cases hp : sep.isPrefixOf (c :: rest) = true
    · simpa [hp] using h
    · simp only [hp] at h ⊢
      cases hr : bytesIndex sep rest with
      | none => simp [hr] at h
      | some k =>
        rw [ih b k hr]
        simpa [hr] using h

theorem genSplitLoop_fuel (sep : List UInt8) (hsep : sep ≠ []) :
    ∀ (n : Nat) (s : List UInt8) (m : Nat), s.length ≤ n → s.length ≤ m →
      genSplitLoop sep n s = genSplitLoop sep m s := by
  have hnil : ∀ k, genSplitLoop sep k [] = [[]] := by
    intro k
    cases k with
    | zero => rfl
    | succ k =>
      cases sep with
      | nil => exact absurd rfl hsep
      | cons c cs => simp [genSplitLoop, bytesIndex]
  have hpos : 1 ≤ sep.length := by
    cases sep with
    | nil => exact absurd rfl hsep
    | cons c cs => simp
  intro n
  induction n with
  | zero =>
    intro s m hn _
    have : s = [] := List.length_eq_zero.1 (by omega)
    subst this
    rw [hnil, hnil]
  | succ n ih =>
    intro s m hn hm
    cases m with
    | zero =>
      have : s = [] := List.length_eq_zero.1 (by omega)
      subst this
      rw [hnil, hnil]
    | succ m =>
      rw [genSplitLoop, genSplitLoop]
      cases hi : bytesIndex sep s with
      | none => rfl
      | some k =>
        have hb := bytesIndex_bound sep s k hi
        simp only
        rw [ih (s.drop (k + sep.length)) m (by simp; omega) (by simp; omega)]

/-- One round of `bytes.Split`: cut at the first separator and split the rest. -/
theorem bytesSplit_unfold (sep : List UInt8) (hsep : sep ≠ []) (s : List UInt8) :
    bytesSplit s sep =
      match bytesIndex sep s with
      | none => [s]
      | some m => s.take m :: bytesSplit (s.drop (m + sep.length)) sep := by
  have hpos : 1 ≤ sep.length := by
    cases sep with
    | nil => exact absurd rfl hsep
    | cons c cs => simp
  unfold bytesSplit
  cases hs : s.length with
  | zero =>
    have : s = [] := List.length_eq_zero.1 hs
    subst this
    cases sep with
    | nil => exact absurd rfl hsep
    | cons c cs => simp [genSplitLoop, bytesIndex]
  | succ n =>
    rw [genSplitLoop]
    cases hi : bytesIndex sep s with
    | none => rfl
    | some k =>
      have hb := bytesIndex_bound sep s k hi
      simp only
      rw [genSplitLoop_fuel sep hsep n (s.drop (k + sep.length))
        (s.drop (k + sep.length)).length (by simp; omega) le_rfl]

theorem bytesSplit_ne_nil (sep : List UInt8) (hsep : sep ≠ []) (s : List UInt8) :
    bytesSplit s sep ≠ [] := by
  rw [bytesSplit_unfold sep hsep]
  cases bytesIndex sep s <;> simp

/-- Splitting `a ++ b`: the complete pieces of `a`, then the split of the last
piece of `a` followed by `b`. -/
theorem bytesSplit_append (sep : List UInt8) (hsep : sep ≠ []) (b : List UInt8) :
    ∀ (n : Nat) (a : List UInt8), a.length ≤ n →
      bytesSplit (a ++ b) sep =
        (bytesSplit a sep).dropLast ++ bytesSplit ((bytesSplit a sep).getLastD [] ++ b) sep := by
  have hpos : 1 ≤ sep.length := by
    cases sep with
    | nil => exact absurd rfl hsep
    | cons c cs => simp
  intro n
  induction n with
  | zero =>
    intro a ha
    have : a = [] := List.length_eq_zero.1 (by omega)
    subst this
    rw [bytesSplit_unfold sep hsep []]
    cases sep with
    | nil => exact absurd rfl hsep
    | cons c cs => simp [bytesIndex]
  | succ n ih =>
    intro a ha
    rw [bytesSplit_unfold sep hsep a]
    cases hi : bytesIndex sep a with
    | none => simp
    | some k =>
      have hb := bytesIndex_bound sep a k hi
      have hne := bytesSplit_ne_nil sep hsep (a.drop (k + sep.length))
      simp only
      rw [bytesSplit_unfold sep hsep (a ++ b), bytesIndex_append sep hsep a b k hi]
      simp only
      rw [List.take_append_of_le_length (by omega), List.drop_append_of_le_length (by omega),
        ih (a.drop (k + sep.length)) (by simp; omega)]
      cases hsp : bytesSplit (a.drop (k + sep.length)) sep with
      | nil => exact absurd hsp hne
      | cons x xs => simp [List.dropLast, List.getLastD]

/-! ## Theorems: the capture writer -/

theorem sep_ne_nil : ascii "\n\n" ≠ [] := by decide

theorem capture_ResponseWriter {σ : Type} (lib : Lib) (ct : String) (w : CaptureWriter σ)
    (data : List UInt8) : (CaptureWriter.capture lib ct w data).ResponseWriter = w.ResponseWriter := by
  unfold CaptureWriter.capture CaptureWriter.StreamMiddleware CaptureWriter.NonStreamMiddleware
  split
  · simp only
    split <;> rfl
  · split
    · split <;> rfl
    · rfl

theorem string_foldl_append (l : List String) (m : String) :
    l.foldl (fun r s => r ++ s) m = m ++ l.foldl (fun r s => r ++ s) "" := by
  induction l generalizing m with
  | nil => simp
  | cons x xs ih =>
    rw [List.foldl_cons, List.foldl_cons, ih (m ++ x), ih ("" ++ x)]
    simp [String.append_assoc]

theorem string_join_cons (x : String) (xs : List String) :
    String.join (x :: xs) = x ++ String.join xs := by
  unfold String.join
  rw [List.foldl_cons, string_foldl_append]
  simp

theorem eventJsonData_eq_segmentData (lib : Lib) (event : List UInt8) :
    eventJsonData lib event = segmentData lib event := by
  unfold eventJsonData segmentData
  generalize bytesSplit event (ascii "\n") = lines
  have key : ∀ (ls : List (List UInt8)) (acc : List UInt8),
      ls.foldl (fun jsonData line =>
          let line := lib.TrimSpace line
          if bytesHasPrefix line (ascii "data: ") then
            jsonData ++ bytesTrimPrefix line (ascii "data: ")
          else jsonData) acc =
        acc ++ ((((ls.map lib.TrimSpace).filter
          (fun line => bytesHasPrefix line (ascii "data: "))).map
          (fun line => line.drop (ascii "data: ").length)).flatten) := by
    intro ls
    induction ls with
    | nil => intro acc; simp
    | cons l ls ih =>
      intro acc
      rw [List.foldl_cons, ih]
      by_cases hp : bytesHasPrefix (lib.TrimSpace l) (ascii "data: ") = true
      · simp [hp, bytesTrimPrefix, List.filter_cons]
      · simp [hp, List.filter_cons]
  simpa using key lines []

theorem processEvent_eq (lib : Lib) (messages : String) (event : List UInt8) :
    processEvent lib messages event = messages ++ segmentText lib event := by
  unfold processEvent segmentText
  rw [eventJsonData_eq_segmentData]
  by_cases he : event = []
  · simp [he]
  · have he2 : ¬ event.length = 0 := fun h => he (List.length_eq_zero.1 h)
    by_cases hd : segmentData lib event = []
    · simp [he, he2, hd]
    · have hd2 : ¬ (segmentData lib event).length = 0 := fun h => hd (List.length_eq_zero.1 h)
      simp only [he, he2, hd, hd2, beq_iff_eq, if_false]
      cases lib.GetBytes (segmentData lib event) "choices.0.delta.content" <;> simp

theorem foldl_processEvent (lib : Lib) (events : List (List UInt8)) (messages : String) :
    events.foldl (processEvent lib) messages =
      messages ++ String.join (events.map (segmentText lib)) := by
  induction events generalizing messages with
  | nil => simp [String.join]
  | cons e es ih =>
    rw [List.foldl_cons, ih, processEvent_eq, List.map_cons, string_join_cons,
      String.append_assoc]

/-- What one `Write` does to the capture state of an event-stream writer. -/
theorem Write_stream {σ : Type} (lib : Lib) (rw : GinResponseWriter σ) (w : CaptureWriter σ)
    (data : List UInt8)
    (hct : stringsHasPrefix (rw.ContentType w.ResponseWriter) "text/event-stream" = true) :
    (CaptureWriter.Write lib rw w data).1.messages =
      (bytesSplit (w.streamBuffer ++ data) (ascii "\n\n")).dropLast.foldl
        (processEvent lib) w.messages ∧
    (CaptureWriter.Write lib rw w data).1.streamBuffer =
      (bytesSplit (w.streamBuffer ++ data) (ascii "\n\n")).getLastD [] ∧
    (CaptureWriter.Write lib rw w data).1.body = w.body := by
  have hne := bytesSplit_ne_nil (ascii "\n\n") sep_ne_nil (w.streamBuffer ++ data)
  have hlen : (bytesSplit (w.streamBuffer ++ data) (ascii "\n\n")).length > 0 :=
    List.length_pos.2 hne
  simp only [CaptureWriter.Write, CaptureWriter.capture, hct, if_true,
    CaptureWriter.StreamMiddleware, hlen, List.dropLast_eq_take]
  simp

theorem getLastD_append_of_ne_nil (l1 l2 : List (List UInt8)) (h : l2 ≠ []) :
    (l1 ++ l2).getLastD [] = l2.getLastD [] := by
  rw [List.getLastD_eq_getLast?, List.getLastD_eq_getLast?,
    List.getLast?_append_of_ne_nil l1 h]

/-- The state of an event-stream writer that has received the bytes `P` since
it was created, however they were cut: the text of the complete events of `P`,
and the piece of `P` after its last delimiter. -/
theorem writeAll_stream {σ : Type} (lib : Lib) (rw : GinResponseWriter σ)
    (hkeep : ∀ s d, rw.ContentType (rw.Write s d).1 = rw.ContentType s) :
    ∀ (chunks : List (List UInt8)) (w : CaptureWriter σ) (P : List UInt8),
      stringsHasPrefix (rw.ContentType w.ResponseWriter) "text/event-stream" = true →
      w.messages = (completeEvents P).foldl (processEvent lib) "" →
      w.streamBuffer = (bytesSplit P (ascii "\n\n")).getLastD [] →
      (CaptureWriter.writeAll lib rw w chunks).messages =
          (completeEvents (P ++ chunks.flatten)).foldl (processEvent lib) "" ∧
        (CaptureWriter.writeAll lib rw w chunks).streamBuffer =
          (bytesSplit (P ++ chunks.flatten) (ascii "\n\n")).getLastD [] := by
  intro chunks
  induction chunks with
  | nil =>
    intro w P _ hm hb
    simp only [CaptureWriter.writeAll, List.foldl_nil, List.flatten_nil, List.append_nil]
    exact ⟨hm, hb⟩
  | cons c cs ih =>
    intro w P hct hm hb
    obtain ⟨sm, sb, _⟩ := Write_stream lib rw w c hct
    have hsplit := bytesSplit_append (ascii "\n\n") sep_ne_nil c P.length P le_rfl
    have hne := bytesSplit_ne_nil (ascii "\n\n") sep_ne_nil
      ((bytesSplit P (ascii "\n\n")).getLastD [] ++ c)
    have hrw : (CaptureWriter.Write lib rw w c).1.ResponseWriter =
        (rw.Write w.ResponseWriter c).1 := by
      simp [CaptureWriter.Write, capture_ResponseWriter]
    have step := ih (CaptureWriter.Write lib rw w c).1 (P ++ c)
      (by rw [hrw, hkeep]; exact hct)
      (by
        rw [sm, hm, hb, completeEvents, completeEvents, hsplit,
          List.dropLast_append_of_ne_nil _ hne, List.foldl_append])
      (by rw [sb, hb, hsplit, getLastD_append_of_ne_nil _ _ hne])
    simpa [CaptureWriter.writeAll, List.append_assoc] using step

/-- C6: writing the chunks of a payload one after another to a fresh
event-stream writer leaves the same assembled text and the same retained buffer
as writing their concatenation in one `Write`, whatever the chunks are. -/
theorem chunked_stream_capture {σ : Type} (lib : Lib) (rw : GinResponseWriter σ) (s0 : σ)
    (chunks : List (List UInt8))
    (h0 : stringsHasPrefix (rw.ContentType s0) "text/event-stream" = true)
    (hkeep : ∀ s d, rw.ContentType (rw.Write s d).1 = rw.ContentType s) :
    (CaptureWriter.writeAll lib rw (CaptureWriter.fresh s0) chunks).messages =
      (CaptureWriter.Write lib rw (CaptureWriter.fresh s0) chunks.flatten).1.messages ∧
    (CaptureWriter.writeAll lib rw (CaptureWriter.fresh s0) chunks).streamBuffer =
      (CaptureWriter.Write lib rw (CaptureWriter.fresh s0) chunks.flatten).1.streamBuffer := by
  have hfresh : (bytesSplit [] (ascii "\n\n")) = [[]] := by decide
  have many := writeAll_stream lib rw hkeep chunks (CaptureWriter.fresh s0) [] h0
    (by simp [completeEvents, hfresh, CaptureWriter.fresh])
    (by simp [hfresh, CaptureWriter.fresh])
  have one := writeAll_stream lib rw hkeep [chunks.flatten] (CaptureWriter.fresh s0) [] h0
    (by simp [completeEvents, hfresh, CaptureWriter.fresh])
    (by simp [hfresh, CaptureWriter.fresh])
  simp only [List.nil_append, CaptureWriter.writeAll, List.foldl_cons, List.foldl_nil,
    List.flatten_cons, List.flatten_nil, List.append_nil] at many one
  exact ⟨many.1.trans one.1.symm, many.2.trans one.2.symm⟩

/-- Witness of C6: a payload of two events and an unfinished third one, cut
inside the first delimiter, inside the second event and with an empty chunk. -/
theorem chunked_stream_capture_witness :
    stringsHasPrefix (recorder.ContentType ("text/event-stream", [])) "text/event-stream"
      = true ∧
    ((CaptureWriter.writeAll modelLib recorder (CaptureWriter.fresh ("text/event-stream", []))
        [ascii "data: \x7b\"choices\":[\x7b\"delta\":\x7b\"content\":\"Hel\"\x7d\x7d]\x7d\n",
         ascii "\ndata: \x7b\"choices\":[\x7b\"del", [],
         ascii "ta\":\x7b\"content\":\"lo\"\x7d\x7d]\x7d\n\nda"]).messages =
      (CaptureWriter.Write modelLib recorder (CaptureWriter.fresh ("text/event-stream", []))
        [ascii "data: \x7b\"choices\":[\x7b\"delta\":\x7b\"content\":\"Hel\"\x7d\x7d]\x7d\n",
         ascii "\ndata: \x7b\"choices\":[\x7b\"del", [],
         ascii "ta\":\x7b\"content\":\"lo\"\x7d\x7d]\x7d\n\nda"].flatten).1.messages ∧
    (CaptureWriter.writeAll modelLib recorder (CaptureWriter.fresh ("text/event-stream", []))
        [ascii "data: \x7b\"choices\":[\x7b\"delta\":\x7b\"content\":\"Hel\"\x7d\x7d]\x7d\n",
         ascii "\ndata: \x7b\"choices\":[\x7b\"del", [],
         ascii "ta\":\x7b\"content\":\"lo\"\x7d\x7d]\x7d\n\nda"]).streamBuffer =
      (CaptureWriter.Write modelLib recorder (CaptureWriter.fresh ("text/event-stream", []))
        [ascii "data: \x7b\"choices\":[\x7b\"delta\":\x7b\"content\":\"Hel\"\x7d\x7d]\x7d\n",
         ascii "\ndata: \x7b\"choices\":[\x7b\"del", [],
         ascii "ta\":\x7b\"content\":\"lo\"\x7d\x7d]\x7d\n\nda"].flatten).1.streamBuffer) ∧
    (CaptureWriter.writeAll modelLib recorder (CaptureWriter.fresh ("text/event-stream", []))
        [ascii "data: \x7b\"choices\":[\x7b\"delta\":\x7b\"content\":\"Hel\"\x7d\x7d]\x7d\n",
         ascii "\ndata: \x7b\"choices\":[\x7b\"del", [],
         ascii "ta\":\x7b\"content\":\"lo\"\x7d\x7d]\x7d\n\nda"]).messages = "Hello" ∧
    (CaptureWriter.writeAll modelLib recorder (CaptureWriter.fresh ("text/event-stream", []))
        [ascii "data: \x7b\"choices\":[\x7b\"delta\":\x7b\"content\":\"Hel\"\x7d\x7d]\x7d\n",
         ascii "\ndata: \x7b\"choices\":[\x7b\"del", [],
         ascii "ta\":\x7b\"content\":\"lo\"\x7d\x7d]\x7d\n\nda"]).streamBuffer = ascii "da" :=
  ⟨by decide,
   chunked_stream_capture modelLib recorder ("text/event-stream", []) _ (by decide)
     (fun _ _ => rfl),
   by decide!, by decide!⟩

/-- C7, the code at the input of the claim: for the body
`{"choices":[{"message":{"content":"hello"}}]}` written in one `Write` to a fresh
`application/json` writer the captured text is empty, not `hello`: the path
`choices.0.choices.message.content` read by `NonStreamMiddleware` does not exist
in that body, while `choices.0.message.content` would give `hello`. -/
theorem nonstream_capture_of_hello :
    (CaptureWriter.Write modelLib recorder (CaptureWriter.fresh ("application/json", []))
      (ascii "\x7b\"choices\":[\x7b\"message\":\x7b\"content\":\"hello\"\x7d\x7d]\x7d")).1.messages
      = "" ∧
    gjsonGetBytes (ascii "\x7b\"choices\":[\x7b\"message\":\x7b\"content\":\"hello\"\x7d\x7d]\x7d")
      "choices.0.choices.message.content" = none ∧
    gjsonGetBytes (ascii "\x7b\"choices\":[\x7b\"message\":\x7b\"content\":\"hello\"\x7d\x7d]\x7d")
      "choices.0.message.content" = some "hello" := by
  refine ⟨by decide!, by decide!, by decide!⟩

/-- C8, the code on a body written in two chunks: the document
`{"choices":[{"choices":{"message":{"content":"hi"}}}]}` followed by a line feed.
The content field of the concatenation is `hi`, and one `Write` of the
concatenation captures `hi`, but the two writes capture `hihi`: the field is
extracted from the accumulated body and appended at every `Write`. -/
theorem nonstream_capture_repeats :
    (CaptureWriter.writeAll modelLib recorder (CaptureWriter.fresh ("application/json", []))
      [ascii "\x7b\"choices\":[\x7b\"choices\":\x7b\"message\":\x7b\"content\":\"hi\"\x7d\x7d\x7d]\x7d",
       ascii "\n"]).messages = "hihi" ∧
    (CaptureWriter.Write modelLib recorder (CaptureWriter.fresh ("application/json", []))
      (ascii "\x7b\"choices\":[\x7b\"choices\":\x7b\"message\":\x7b\"content\":\"hi\"\x7d\x7d\x7d]\x7d"
        ++ ascii "\n")).1.messages = "hi" ∧
    gjsonGetBytes
      (ascii "\x7b\"choices\":[\x7b\"choices\":\x7b\"message\":\x7b\"content\":\"hi\"\x7d\x7d\x7d]\x7d"
        ++ ascii "\n") "choices.0.choices.message.content" = some "hi" := by
  refine ⟨by decide!, by decide!, by decide!⟩

/-- C9: after a single `Write` of a payload to a fresh event-stream writer the
assembled text is the concatenation, over the delimiter-terminated segments of
the payload in order, of the delta-content extracted from the segment's data (its
trimmed lines that start with `data: `, prefix stripped, concatenated); a segment
that is empty, has no data or has no extractable delta-content contributes the
empty text. -/
theorem single_write_assembles {σ : Type} (lib : Lib) (rw : GinResponseWriter σ) (s0 : σ)
    (P : List UInt8)
    (h0 : stringsHasPrefix (rw.ContentType s0) "text/event-stream" = true) :
    (CaptureWriter.Write lib rw (CaptureWriter.fresh s0) P).1.messages = assembledText lib P ∧
    (∀ segment : List UInt8,
      (segment = [] ∨ segmentData lib segment = [] ∨
        lib.GetBytes (segmentData lib segment) "choices.0.delta.content" = none) →
      segmentText lib segment = "") := by
  constructor
  · obtain ⟨sm, _, _⟩ := Write_stream lib rw (CaptureWriter.fresh s0) P h0
    rw [sm, foldl_processEvent]
    simp [CaptureWriter.fresh, assembledText, completeEvents]
  · intro segment h
    unfold segmentText
    rcases h with h | h | h
    · simp [h]
    · simp [h]
    · simp [h]

/-- Witness of C9: a payload with an empty segment, a comment segment, a segment
whose data has no delta-content, a segment with an indented data line and an
unfinished last event; the assembled text is `Hi`. -/
theorem single_write_assembles_witness :
    stringsHasPrefix (recorder.ContentType ("text/event-stream; charset=utf-8", []))
      "text/event-stream" = true ∧
    ((CaptureWriter.Write modelLib recorder
        (CaptureWriter.fresh ("text/event-stream; charset=utf-8", []))
        (ascii ("\n\n: ping\n\ndata: \x7b\"x\":1\x7d\n\nevent: m\n" ++
          "  data: \x7b\"choices\":[\x7b\"delta\":\x7b\"content\":\"Hi\"\x7d\x7d]\x7d \n\ndata: \x7b"))
        ).1.messages =
      assembledText modelLib
        (ascii ("\n\n: ping\n\ndata: \x7b\"x\":1\x7d\n\nevent: m\n" ++
          "  data: \x7b\"choices\":[\x7b\"delta\":\x7b\"content\":\"Hi\"\x7d\x7d]\x7d \n\ndata: \x7b")) ∧
    (∀ segment : List UInt8,
      (segment = [] ∨ segmentData modelLib segment = [] ∨
        modelLib.GetBytes (segmentData modelLib segment) "choices.0.delta.content" = none) →
      segmentText modelLib segment = "")) ∧
    assembledText modelLib
        (ascii ("\n\n: ping\n\ndata: \x7b\"x\":1\x7d\n\nevent: m\n" ++
          "  data: \x7b\"choices\":[\x7b\"delta\":\x7b\"content\":\"Hi\"\x7d\x7d]\x7d \n\ndata: \x7b"))
      = "Hi" ∧
    (completeEvents
        (ascii ("\n\n: ping\n\ndata: \x7b\"x\":1\x7d\n\nevent: m\n" ++
          "  data: \x7b\"choices\":[\x7b\"delta\":\x7b\"content\":\"Hi\"\x7d\x7d]\x7d \n\ndata: \x7b"))
      ).length = 4 :=
  ⟨by decide,
   single_write_assembles modelLib recorder ("text/event-stream; charset=utf-8", []) _
     (by decide),
   by decide!, by decide!⟩

/-- C10: `Write` hands exactly the given bytes, once, to the wrapped writer (the
state of the wrapped writer afterwards is the one its own `Write` produces from
the state before) and returns that writer's result; and for a content type that
starts with neither `text/event-stream` nor `application/json` the fields `body`,
`streamBuffer` and `messages` are unchanged. -/
theorem Write_forwards {σ : Type} (lib : Lib) (rw : GinResponseWriter σ) (w : CaptureWriter σ)
    (data : List UInt8) :
    (CaptureWriter.Write lib rw w data).1.ResponseWriter = (rw.Write w.ResponseWriter data).1 ∧
    (CaptureWriter.Write lib rw w data).2 = (rw.Write w.ResponseWriter data).2 ∧
    (stringsHasPrefix (rw.ContentType w.ResponseWriter) "text/event-stream" = false →
      stringsHasPrefix (rw.ContentType w.ResponseWriter) "application/json" = false →
      (CaptureWriter.Write lib rw w data).1.body = w.body ∧
      (CaptureWriter.Write lib rw w data).1.streamBuffer = w.streamBuffer ∧
      (CaptureWriter.Write lib rw w data).1.messages = w.messages) := by
  refine ⟨?_, ?_, ?_⟩
  · simp [CaptureWriter.Write, capture_ResponseWriter]
  · simp [CaptureWriter.Write, capture_ResponseWriter]
  · intro h1 h2
    simp [CaptureWriter.Write, CaptureWriter.capture, h1, h2]

/-- Witness of C10: a chunk written to a fresh writer whose content type is
`text/html` reaches the recorder once and unchanged, the result is the
recorder's, and nothing is captured. -/
theorem Write_forwards_witness :
    ((CaptureWriter.Write modelLib recorder htmlWriter (ascii "data: x\n\n")).1.ResponseWriter =
      (recorder.Write htmlWriter.ResponseWriter (ascii "data: x\n\n")).1 ∧
    (CaptureWriter.Write modelLib recorder htmlWriter (ascii "data: x\n\n")).2 =
      (recorder.Write htmlWriter.ResponseWriter (ascii "data: x\n\n")).2 ∧
    (stringsHasPrefix (recorder.ContentType htmlWriter.ResponseWriter) "text/event-stream"
        = false →
      stringsHasPrefix (recorder.ContentType htmlWriter.ResponseWriter) "application/json"
        = false →
      (CaptureWriter.Write modelLib recorder htmlWriter (ascii "data: x\n\n")).1.body =
        htmlWriter.body ∧
      (CaptureWriter.Write modelLib recorder htmlWriter (ascii "data: x\n\n")).1.streamBuffer =
        htmlWriter.streamBuffer ∧
      (CaptureWriter.Write modelLib recorder htmlWriter (ascii "data: x\n\n")).1.messages =
        htmlWriter.messages)) ∧
    (CaptureWriter.Write modelLib recorder htmlWriter (ascii "data: x\n\n")).1.ResponseWriter =
      ("text/html", [ascii "data: x\n\n"]) ∧
    (CaptureWriter.Write modelLib recorder htmlWriter (ascii "data: x\n\n")).2 = (9, none) ∧
    (CaptureWriter.Write modelLib recorder htmlWriter (ascii "data: x\n\n")).1.messages = "" :=
  ⟨Write_forwards modelLib recorder htmlWriter (ascii "data: x\n\n"),
   by decide!, by decide!, by decide!⟩

/-! ## Theorems: the database backends -/

theorem bucketGet_bucketPut_same (key value : List UInt8) (bucket : Bucket) :
    bucketGet (bucketPut key value bucket) key = some value := by
  induction bucket with
  | nil => simp [bucketPut, bucketGet, List.lookup]
  | cons kv rest ih =>
    obtain ⟨k, v⟩ := kv
    unfold bucketPut
    by_cases h1 : key = k
    · simp [h1, bucketGet, List.lookup]
    · by_cases h2 : bytesLess key k = true
      · simp [h1, h2, bucketGet, List.lookup]
      · have hb : (key == k) = false := by simpa using h1
        simp only [h1, h2, if_false, bucketGet, List.lookup, hb]
        simpa [bucketGet] using ih

theorem bucketGet_bucketDelete_same (key : List UInt8) (bucket : Bucket) :
    bucketGet (bucketDelete key bucket) key = none := by
  induction bucket with
  | nil => simp [bucketDelete, bucketGet]
  | cons kv rest ih =>
    obtain ⟨k, v⟩ := kv
    simp only [bucketDelete, bucketGet] at ih ⊢
    by_cases h : k = key
    · have hb : ((k, v).1 != key) = false := by simp [h]
      rw [List.filter_cons]
      simp only [hb, Bool.false_eq_true, if_false]
      exact ih
    · have hb : ((k, v).1 != key) = true := by simpa using h
      have hb2 : (key == k) = false := by
        simpa using (fun e : key = k => h e.symm)
      rw [List.filter_cons]
      simp only [hb, if_true, List.lookup, hb2]
      exact ih

theorem bucketGet_bucketDelete_other (key key2 : List UInt8) (bucket : Bucket)
    (h : key2 ≠ key) : bucketGet (bucketDelete key bucket) key2 = bucketGet bucket key2 := by
  induction bucket with
  | nil => simp [bucketDelete, bucketGet]
  | cons kv rest ih =>
    obtain ⟨k, v⟩ := kv
    simp only [bucketDelete, bucketGet] at ih ⊢
    by_cases hk : k = key
    · have hb : ((k, v).1 != key) = false := by simp [hk]
      have hb2 : (key2 == k) = false := by
        rw [hk]; simpa using h
      rw [List.filter_cons]
      simp only [hb, Bool.false_eq_true, if_false, List.lookup, hb2]
      exact ih
    · have hb : ((k, v).1 != key) = true := by simpa using hk
      rw [List.filter_cons]
      simp only [hb, if_true, List.lookup]
      cases key2 == k with
      | true => rfl
      | false => exact ih

theorem bucketDelete_idem (key : List UInt8) (bucket : Bucket) :
    bucketDelete key (bucketDelete key bucket) = bucketDelete key bucket := by
  simp [bucketDelete, List.filter_filter]

/-- C16: `StartCleanup` panics exactly when `Expire` or `CleanupInterval` is
negative; it starts the periodic task (with period `CleanupInterval`) exactly
when both are positive; and it returns without starting anything exactly when
none is negative and one of them is zero. -/
theorem StartCleanup_outcome (bc : BoltConfig) :
    ((∃ msg, bc.StartCleanup = .panics msg) ↔ (bc.Expire < 0 ∨ bc.CleanupInterval < 0)) ∧
    ((∃ interval, bc.StartCleanup = .startsTask interval) ↔
      (0 < bc.Expire ∧ 0 < bc.CleanupInterval)) ∧
    (bc.StartCleanup = .startsTask bc.CleanupInterval ↔
      (0 < bc.Expire ∧ 0 < bc.CleanupInterval)) ∧
    (bc.StartCleanup = .returns ↔
      (0 ≤ bc.Expire ∧ 0 ≤ bc.CleanupInterval ∧ (bc.Expire = 0 ∨ bc.CleanupInterval = 0))) := by
  unfold BoltConfig.StartCleanup
  by_cases h1 : bc.Expire < 0 ∨ bc.CleanupInterval < 0
  · simp only [h1, if_true]
    refine ⟨by simp, ?_, ?_, ?_⟩
    · simp; omega
    · simp; omega
    · simp; omega
  · by_cases h2 : bc.Expire = 0 ∨ bc.CleanupInterval = 0
    · simp only [h1, h2, if_true, if_false]
      refine ⟨by simp, ?_, ?_, ?_⟩
      · simp; omega
      · simp; omega
      · simp; omega
    · simp only [h1, h2, if_false]
      refine ⟨by simp, ?_, ?_, ?_⟩
      · simp; omega
      · simp; omega
      · simp

theorem read_of_bucket (bc : BoltConfig) (codec : EntryCodec) (faults : TxFaults) (db : BoltDB)
    (bucket : Bucket) (conversationID : String)
    (hbegin : faults.begin = none) (hb : db.bucket = some bucket) :
    bc.read codec faults db conversationID =
      match bucketGet bucket (utf8Bytes conversationID) with
      | none => .ok ""
      | some data =>
        match codec.Unmarshal data with
        | .error err => .error err
        | .ok e => .ok e.CRC32 := by
  simp only [BoltConfig.read, hbegin, hb]

/-- C11 as stated fails: with the undecodable bytes `not json` stored for the key
`c1`, `read` returns an error, not the empty string without error; for the
absent key `c2` it does return the empty string without error. -/
theorem read_surfaces_decode_error :
    dbCorrupt.stored (ascii "c1") = some (ascii "not json") ∧
    (sampleCodec.Unmarshal (ascii "not json")).toBool = false ∧
    (sampleBolt.read sampleCodec noFaults dbCorrupt "c1").toBool = false ∧
    sampleBolt.read sampleCodec noFaults dbCorrupt "c1" ≠ .ok "" ∧
    sampleBolt.read sampleCodec noFaults dbCorrupt "c2" = .ok "" := by
  refine ⟨by decide!, by decide!, by decide!, by decide!, by decide!⟩

/-- C11 amended: in a transaction that begins, on an existing bucket, `read`
returns the empty string with no error when the key is absent; when the stored
bytes cannot be decoded as an entry it returns the decode error to the caller;
when they decode it returns the stored value. -/
theorem read_absent_or_undecodable (bc : BoltConfig) (codec : EntryCodec) (faults : TxFaults)
    (db : BoltDB) (bucket : Bucket) (conversationID : String)
    (hbegin : faults.begin = none) (hb : db.bucket = some bucket) :
    (bucketGet bucket (utf8Bytes conversationID) = none →
      bc.read codec faults db conversationID = .ok "") ∧
    (∀ data err, bucketGet bucket (utf8Bytes conversationID) = some data →
      codec.Unmarshal data = .error err →
      bc.read codec faults db conversationID = .error err) ∧
    (∀ data e, bucketGet bucket (utf8Bytes conversationID) = some data →
      codec.Unmarshal data = .ok e →
      bc.read codec faults db conversationID = .ok e.CRC32) := by
  rw [read_of_bucket bc codec faults db bucket conversationID hbegin hb]
  refine ⟨?_, ?_, ?_⟩
  · intro h; simp [h]
  · intro data err h1 h2; simp [h1, h2]
  · intro data e h1 h2; simp [h1, h2]

/-- Witness of the amended C11: a bucket that holds undecodable bytes for `c1`
and an entry for `c3`, read at the absent key `c2`. -/
theorem read_absent_or_undecodable_witness :
    noFaults.begin = none ∧
    dbCorrupt.bucket = some [(ascii "c1", ascii "not json"),
      (ascii "c3", ascii "\x7b\"crc32\":\"3089d15e\",\"timestamp\":100\x7d")] ∧
    ((bucketGet [(ascii "c1", ascii "not json"),
          (ascii "c3", ascii "\x7b\"crc32\":\"3089d15e\",\"timestamp\":100\x7d")]
          (utf8Bytes "c2") = none →
        sampleBolt.read sampleCodec noFaults dbCorrupt "c2" = .ok "") ∧
      (∀ data err, bucketGet [(ascii "c1", ascii "not json"),
          (ascii "c3", ascii "\x7b\"crc32\":\"3089d15e\",\"timestamp\":100\x7d")]
          (utf8Bytes "c2") = some data →
        sampleCodec.Unmarshal data = .error err →
        sampleBolt.read sampleCodec noFaults dbCorrupt "c2" = .error err) ∧
      (∀ data e, bucketGet [(ascii "c1", ascii "not json"),
          (ascii "c3", ascii "\x7b\"crc32\":\"3089d15e\",\"timestamp\":100\x7d")]
          (utf8Bytes "c2") = some data →
        sampleCodec.Unmarshal data = .ok e →
        sampleBolt.read sampleCodec noFaults dbCorrupt "c2" = .ok e.CRC32)) ∧
    sampleBolt.read sampleCodec noFaults dbCorrupt "c2" = .ok "" ∧
    sampleBolt.read sampleCodec noFaults dbCorrupt "c3" = .ok "3089d15e" :=
  ⟨rfl, rfl,
   read_absent_or_undecodable sampleBolt sampleCodec noFaults dbCorrupt _ "c2" rfl rfl,
   by decide!, by decide!⟩

theorem write_ok (bc : BoltConfig) (codec : EntryCodec) (faults : TxFaults) (now : Int)
    (db db1 : BoltDB) (k v : String) (h : bc.write codec faults now db k v = (none, db1)) :
    ∃ bucket data, db.bucket = some bucket ∧
      codec.Marshal { CRC32 := v, Timestamp := now } = .ok data ∧
      db1 = { bucket := some (bucketPut (utf8Bytes k) data bucket) } := by
  unfold BoltConfig.write at h
  cases hm : codec.Marshal { CRC32 := v, Timestamp := now } with
  | error e => simp [hm] at h
  | ok data =>
    cases hbg : faults.begin with
    | some e => simp [hm, hbg] at h
    | none =>
      cases hb : db.bucket with
      | none => simp [hm, hbg, hb] at h
      | some bucket =>
        cases hp : putError (utf8Bytes k) data with
        | some e => simp [hm, hbg, hb, hp] at h
        | none =>
          cases hc : faults.commit with
          | some e => simp [hm, hbg, hb, hp, hc] at h
          | none =>
            simp [hm, hbg, hb, hp, hc] at h
            exact ⟨bucket, data, rfl, rfl, h.symm⟩

theorem deleteIfExpired_ok (bc : BoltConfig) (faults : TxFaults) (db db1 : BoltDB)
    (key : List UInt8) (h : bc.deleteIfExpired faults db key = (none, db1)) :
    faults.begin = none ∧ faults.commit = none ∧
    ∃ bucket, db.bucket = some bucket ∧ db1 = { bucket := some (bucketDelete key bucket) } := by
  unfold BoltConfig.deleteIfExpired at h
  cases hbg : faults.begin with
  | some e => simp [hbg] at h
  | none =>
    cases hb : db.bucket with
    | none => simp [hbg, hb] at h
    | some bucket =>
      cases hc : faults.commit with
      | some e => simp [hbg, hb, hc] at h
      | none =>
        simp [hbg, hb, hc] at h
        exact ⟨rfl, rfl, bucket, rfl, h.symm⟩

/-- C15: after a successful `deleteIfExpired(key)` the key reads as empty, what
is stored for every other key is unchanged, and a second call returns no error
and leaves the same database; whether the key is present plays no part in the
result: on an existing bucket, in a transaction that begins and commits, the
call returns no error. -/
theorem deleteIfExpired_removes (bc : BoltConfig) (codec : EntryCodec) (faults f2 : TxFaults)
    (db db1 : BoltDB) (conversationID : String)
    (h : bc.deleteIfExpired faults db (utf8Bytes conversationID) = (none, db1))
    (h2 : f2.begin = none) :
    bc.read codec f2 db1 conversationID = .ok "" ∧
    db1.stored (utf8Bytes conversationID) = none ∧
    (∀ key, key ≠ utf8Bytes conversationID → db1.stored key = db.stored key) ∧
    bc.deleteIfExpired faults db1 (utf8Bytes conversationID) = (none, db1) ∧
    (∀ (d : BoltDB) (bucket : Bucket) (key : List UInt8), d.bucket = some bucket →
      (bc.deleteIfExpired faults d key).1 = none) := by
  obtain ⟨hbg, hc, bucket, hb, hdb1⟩ := deleteIfExpired_ok bc faults db db1 _ h
  refine ⟨?_, ?_, ?_, ?_, ?_⟩
  · rw [read_of_bucket bc codec f2 db1 (bucketDelete (utf8Bytes conversationID) bucket)
      conversationID h2 (by rw [hdb1]), bucketGet_bucketDelete_same]
  · rw [hdb1]
    simp [BoltDB.stored, bucketGet_bucketDelete_same]
  · intro key hkey
    rw [hdb1]
    simp [BoltDB.stored, hb, bucketGet_bucketDelete_other _ _ _ hkey]
  · rw [hdb1]
    simp [BoltConfig.deleteIfExpired, hbg, hc, bucketDelete_idem]
  · intro d b key hd
    simp [BoltConfig.deleteIfExpired, hbg, hc, hd]

/-- Witness of C15: the key `c1` deleted from the database `dbC1`, which leaves
`dbC0`; and the absent key `c9` deleted from `dbC0`. -/
theorem deleteIfExpired_removes_witness :
    sampleBolt.deleteIfExpired noFaults dbC1 (utf8Bytes "c1") = (none, dbC0) ∧
    noFaults.begin = none ∧
    (sampleBolt.read sampleCodec noFaults dbC0 "c1" = .ok "" ∧
      dbC0.stored (utf8Bytes "c1") = none ∧
      (∀ key, key ≠ utf8Bytes "c1" → dbC0.stored key = dbC1.stored key) ∧
      sampleBolt.deleteIfExpired noFaults dbC0 (utf8Bytes "c1") = (none, dbC0) ∧
      (∀ (d : BoltDB) (bucket : Bucket) (key : List UInt8), d.bucket = some bucket →
        (sampleBolt.deleteIfExpired noFaults d key).1 = none)) ∧
    sampleBolt.deleteIfExpired noFaults dbC0 (utf8Bytes "c9") = (none, dbC0) ∧
    sampleBolt.read sampleCodec noFaults dbC1 "c1" = .ok "3089d15e" :=
  ⟨by decide!, rfl,
   deleteIfExpired_removes sampleBolt sampleCodec noFaults noFaults dbC1 dbC0 "c1"
     (by decide!) rfl,
   by decide!, by decide!⟩

/-! ## Theorems: the eviction sweep -/

theorem sweepLoop_stuck {σ : Type} (ops : CursorOps σ) (codec : EntryCodec) (now expire : Int)
    (k v : List UInt8) (h : sweepDeletes codec now expire v = true) :
    ∀ (fuel : Nat) (s : σ), sweepLoop ops codec now expire fuel s (some (k, v)) = none := by
  intro fuel
  induction fuel with
  | zero => intro s; rfl
  | succ n ih =>
    intro s
    unfold sweepDeletes at h
    rw [sweepLoop]
    cases hu : codec.Unmarshal v with
    | error e => exact ih _
    | ok e =>
      simp only [hu, decide_eq_true_eq] at h
      simp only [h, if_true]
      exact ih _

theorem sweepLoop_keep {σ : Type} (ops : CursorOps σ) (codec : EntryCodec) (now expire : Int)
    (k v : List UInt8) (h : sweepDeletes codec now expire v = false) (fuel : Nat) (s : σ) :
    sweepLoop ops codec now expire (fuel + 1) s (some (k, v)) =
      sweepLoop ops codec now expire fuel (ops.Next s).1 (ops.Next s).2 := by
  unfold sweepDeletes at h
  rw [sweepLoop]
  cases hu : codec.Unmarshal v with
  | error e => simp [hu] at h
  | ok e =>
    simp only [hu, decide_eq_false_iff_not] at h
    simp only [h, if_false]

/-- A sweep loop that ends on a bucket has left the bucket as it was. -/
theorem sweepLoop_list_unchanged (codec : EntryCodec) (now expire : Int) (b : Bucket) :
    ∀ (fuel pos : Nat) (s : Bucket × Nat),
      sweepLoop listCursor codec now expire fuel (b, pos) b[pos]? = some s → s.1 = b := by
  intro fuel
  induction fuel with
  | zero => intro pos s h; simp [sweepLoop] at h
  | succ n ih =>
    intro pos s h
    cases hkv : b[pos]? with
    | none =>
      rw [hkv, sweepLoop] at h
      injection h with h
      rw [← h]
    | some kv =>
      obtain ⟨k, v⟩ := kv
      rw [hkv] at h
      cases hd : sweepDeletes codec now expire v with
      | true => rw [sweepLoop_stuck listCursor codec now expire k v hd] at h; cases h
      | false =>
        rw [sweepLoop_keep listCursor codec now expire k v hd] at h
        exact ih (pos + 1) s h

/-- The sweep loop does not end on a bucket in which, at or after the cursor,
some value takes a deleting path. -/
theorem sweepLoop_list_hangs (codec : EntryCodec) (now expire : Int) (b : Bucket) :
    ∀ (gap pos : Nat) (k v : List UInt8), b[pos + gap]? = some (k, v) →
      sweepDeletes codec now expire v = true →
      ∀ fuel, sweepLoop listCursor codec now expire fuel (b, pos) b[pos]? = none := by
  intro gap
  induction gap with
  | zero =>
    intro pos k v hkv hd fuel
    rw [Nat.add_zero] at hkv
    rw [hkv]
    exact sweepLoop_stuck listCursor codec now expire k v hd fuel _
  | succ g ih =>
    intro pos k v hkv hd fuel
    cases fuel with
    | zero => rfl
    | succ n =>
      cases hp : b[pos]? with
      | none =>
        have hlen : b.length ≤ pos := List.getElem?_eq_none_iff.1 hp
        have : b[pos + (g + 1)]? = none := List.getElem?_eq_none_iff.2 (by omega)
        rw [this] at hkv
        cases hkv
      | some kv =>
        obtain ⟨k0, v0⟩ := kv
        cases hd0 : sweepDeletes codec now expire v0 with
        | true => exact sweepLoop_stuck listCursor codec now expire k0 v0 hd0 _ _
        | false =>
          rw [sweepLoop_keep listCursor codec now expire k0 v0 hd0]
          exact ih (pos + 1) k v (by rw [← hkv]; congr 1; omega) hd n

/-- The sweep loop ends, within `length - pos + 1` rounds, on a bucket in which
no value at or after the cursor takes a deleting path. -/
theorem sweepLoop_list_ends (codec : EntryCodec) (now expire : Int) (b : Bucket)
    (hall : ∀ kv ∈ b, sweepDeletes codec now expire kv.2 = false) :
    ∀ (fuel pos : Nat), b.length - pos < fuel →
      ∃ p, sweepLoop listCursor codec now expire fuel (b, pos) b[pos]? = some (b, p) := by
  intro fuel
  induction fuel with
  | zero => intro pos h; omega
  | succ n ih =>
    intro pos h
    cases hp : b[pos]? with
    | none => exact ⟨pos, by rw [sweepLoop]⟩
    | some kv =>
      obtain ⟨k, v⟩ := kv
      have hd := hall (k, v) (List.getElem?_mem hp)
      rw [sweepLoop_keep listCursor codec now expire k v hd]
      have hlt : pos < b.length := by
        by_contra hcon
        have : b[pos]? = none := List.getElem?_eq_none_iff.2 (by omega)
        rw [this] at hp
        cases hp
      exact ih (pos + 1) (by omega)

theorem cleanup_of_bucket (bc : BoltConfig) (codec : EntryCodec) (faults : TxFaults)
    (now : Int) (fuel : Nat) (db : BoltDB) (bucket : Bucket)
    (hbegin : faults.begin = none) (hb : db.bucket = some bucket) :
    bc.cleanupExpiredEntries codec faults now fuel db =
      match sweepLoop listCursor codec now bc.Expire fuel (bucket, 0) bucket[0]? with
      | none => none
      | some s =>
        match faults.commit with
        | some err => some (some err, db)
        | none => some (none, { bucket := some s.1 }) := by
  simp only [BoltConfig.cleanupExpiredEntries, hbegin, hb, listCursor]

/-- A sweep that returns has left the database as it was. -/
theorem cleanup_unchanged (bc : BoltConfig) (codec : EntryCodec) (faults : TxFaults)
    (now : Int) (fuel : Nat) (db db1 : BoltDB) (r : Option String)
    (h : bc.cleanupExpiredEntries codec faults now fuel db = some (r, db1)) : db1 = db := by
  cases hbg : faults.begin with
  | some e =>
    simp [BoltConfig.cleanupExpiredEntries, hbg] at h
    exact h.2.symm
  | none =>
    cases hb : db.bucket with
    | none =>
      simp [BoltConfig.cleanupExpiredEntries, hbg, hb] at h
      exact h.2.symm
    | some bucket =>
      rw [cleanup_of_bucket bc codec faults now fuel db bucket hbg hb] at h
      cases hl : sweepLoop listCursor codec now bc.Expire fuel (bucket, 0) bucket[0]? with
      | none => simp [hl] at h
      | some s =>
        have hs := sweepLoop_list_unchanged codec now bc.Expire bucket fuel 0 s hl
        cases hc : faults.commit with
        | some e =>
          simp [hl, hc] at h
          exact h.2.symm
        | none =>
          simp [hl, hc] at h
          rw [← h.2, hs]
          cases db
          simp at hb
          rw [hb]

/-- A sweep does not return on a bucket that holds a value taking a deleting
path. -/
theorem cleanup_hangs (bc : BoltConfig) (codec : EntryCodec) (faults : TxFaults) (now : Int)
    (db : BoltDB) (bucket : Bucket) (k v : List UInt8)
    (hbegin : faults.begin = none) (hb : db.bucket = some bucket) (hmem : (k, v) ∈ bucket)
    (hd : sweepDeletes codec now bc.Expire v = true) :
    ∀ fuel, bc.cleanupExpiredEntries codec faults now fuel db = none := by
  intro fuel
  obtain ⟨i, hi⟩ := List.getElem?_of_mem hmem
  rw [cleanup_of_bucket bc codec faults now fuel db bucket hbegin hb,
    sweepLoop_list_hangs codec now bc.Expire bucket i 0 k v (by simpa using hi) hd fuel]

/-- A sweep returns, with the error of the commit, on a bucket in which no value
takes a deleting path. -/
theorem cleanup_ends (bc : BoltConfig) (codec : EntryCodec) (faults : TxFaults) (now : Int)
    (db : BoltDB) (bucket : Bucket) (fuel : Nat)
    (hbegin : faults.begin = none) (hb : db.bucket = some bucket)
    (hall : ∀ kv ∈ bucket, sweepDeletes codec now bc.Expire kv.2 = false)
    (hfuel : bucket.length < fuel) :
    bc.cleanupExpiredEntries codec faults now fuel db = some (faults.commit, db) := by
  obtain ⟨p, hp⟩ := sweepLoop_list_ends codec now bc.Expire bucket hall fuel 0 (by omega)
  rw [cleanup_of_bucket bc codec faults now fuel db bucket hbegin hb, hp]
  cases hc : faults.commit with
  | some e => rfl
  | none =>
    cases db
    simp at hb
    simp [hb]

theorem runSweeps_unchanged (bc : BoltConfig) (codec : EntryCodec)
    (sweeps : List (TxFaults × Int × Nat)) (db : BoltDB) :
    runSweeps bc codec sweeps db = db := by
  induction sweeps with
  | nil => rfl
  | cons s rest ih =>
    obtain ⟨faults, now, fuel⟩ := s
    rw [runSweeps]
    cases h : bc.cleanupExpiredEntries codec faults now fuel db with
    | none => exact ih
    | some r =>
      obtain ⟨e, db1⟩ := r
      rw [cleanup_unchanged bc codec faults now fuel db db1 e h]
      exact ih

theorem timeSub_le (now t d : Int) (hd : 0 < d) (h : now ≤ t + d) : timeSub now t ≤ d := by
  unfold timeSub maxDuration minDuration
  split
  · omega
  · split
    · omega
    · omega

/-- C13, the code on a bucket that holds a fresh entry (`a`, written at 190), an
expired entry (`b`, written at 100) and undecodable bytes (`c`), swept at the
clock value 200 with a TTL of 50: the sweep does not return, however many rounds
its loop is given, so nothing is committed and `b` and `c` stay in the bucket. In
general a sweep does not return on a bucket that holds a value to delete, and a
sweep that returns has left the database as it was. -/
theorem sweep_deletes_nothing :
    (∀ fuel, sampleBolt.cleanupExpiredEntries sampleCodec noFaults 200 fuel dbStale = none) ∧
    sweepDeletes sampleCodec 200 sampleBolt.Expire
      (ascii "\x7b\"crc32\":\"3089d15e\",\"timestamp\":190\x7d") = false ∧
    sweepDeletes sampleCodec 200 sampleBolt.Expire
      (ascii "\x7b\"crc32\":\"a41e3364\",\"timestamp\":100\x7d") = true ∧
    sweepDeletes sampleCodec 200 sampleBolt.Expire (ascii "not json") = true ∧
    (∀ (bc : BoltConfig) (codec : EntryCodec) (faults : TxFaults) (now : Int) (db : BoltDB)
      (bucket : Bucket) (k v : List UInt8),
      faults.begin = none → db.bucket = some bucket → (k, v) ∈ bucket →
      sweepDeletes codec now bc.Expire v = true →
      ∀ fuel, bc.cleanupExpiredEntries codec faults now fuel db = none) ∧
    (∀ (bc : BoltConfig) (codec : EntryCodec) (faults : TxFaults) (now : Int) (fuel : Nat)
      (db db1 : BoltDB) (r : Option String),
      bc.cleanupExpiredEntries codec faults now fuel db = some (r, db1) → db1 = db) := by
  have hb : sweepDeletes sampleCodec 200 sampleBolt.Expire
      (ascii "\x7b\"crc32\":\"a41e3364\",\"timestamp\":100\x7d") = true := by decide!
  refine ⟨?_, by decide!, hb, by decide!, ?_, ?_⟩
  · exact cleanup_hangs sampleBolt sampleCodec noFaults 200 dbStale _ (ascii "b") _ rfl rfl
      (by simp) hb
  · intro bc codec faults now db bucket k v h1 h2 h3 h4
    exact cleanup_hangs bc codec faults now db bucket k v h1 h2 h3 h4
  · intro bc codec faults now fuel db db1 r h
    exact cleanup_unchanged bc codec faults now fuel db db1 r h

/-- C19, the code on a bucket with one expired entry (`c0`, written at 7, swept
at 200 with the positive TTL 50): the loop does not end, however many rounds it
is given. For every cursor, once the loop examines a pair whose value takes a
deleting path it never ends: after `cursor.Delete()` the `continue` returns to
the loop test with the same `k, v`. On a bucket the sweep returns exactly when
no stored value takes a deleting path. -/
theorem sweep_loop_does_not_end :
    (∀ fuel, sampleBolt.cleanupExpiredEntries sampleCodec noFaults 200 fuel dbC0 = none) ∧
    0 < sampleBolt.Expire ∧
    (∀ (σ : Type) (ops : CursorOps σ) (codec : EntryCodec) (now expire : Int)
      (k v : List UInt8), sweepDeletes codec now expire v = true →
      ∀ (fuel : Nat) (s : σ), sweepLoop ops codec now expire fuel s (some (k, v)) = none) ∧
    (∀ (bc : BoltConfig) (codec : EntryCodec) (faults : TxFaults) (now : Int) (db : BoltDB)
      (bucket : Bucket), faults.begin = none → db.bucket = some bucket →
      ((∃ fuel r, bc.cleanupExpiredEntries codec faults now fuel db = some r) ↔
        ∀ kv ∈ bucket, sweepDeletes codec now bc.Expire kv.2 = false)) := by
  refine ⟨?_, by decide, ?_, ?_⟩
  · exact cleanup_hangs sampleBolt sampleCodec noFaults 200 dbC0 _ (ascii "c0")
      (ascii "\x7b\"crc32\":\"00000000\",\"timestamp\":7\x7d") rfl rfl
      (by simp) (by decide!)
  · intro σ ops codec now expire k v h fuel s
    exact sweepLoop_stuck ops codec now expire k v h fuel s
  · intro bc codec faults now db bucket hbg hb
    constructor
    · rintro ⟨fuel, r, hr⟩ kv hkv
      cases hd : sweepDeletes codec now bc.Expire kv.2 with
      | false => rfl
      | true =>
        rw [cleanup_hangs bc codec faults now db bucket kv.1 kv.2 hbg hb hkv hd fuel] at hr
        cases hr
    · intro hall
      exact ⟨bucket.length + 1, _,
        cleanup_ends bc codec faults now db bucket (bucket.length + 1) hbg hb hall (by omega)⟩

/-- C14 as stated fails at `now = t + d`: the entry written at the clock value
100 under the TTL 50 is swept at the clock value 150; the sweep returns without
error and has kept the entry (its age, 50, does not exceed the TTL), so `read`
returns the value, not the empty string. -/
theorem sweep_at_ttl_keeps_entry :
    sampleBolt.write sampleCodec noFaults 100 emptyDB "c1" "3089d15e" = (none, dbW) ∧
    sampleBolt.Expire = 50 ∧
    sampleBolt.cleanupExpiredEntries sampleCodec noFaults (100 + 50) 2 dbW = some (none, dbW) ∧
    sampleBolt.read sampleCodec noFaults dbW "c1" = .ok "3089d15e" ∧
    sampleBolt.read sampleCodec noFaults dbW "c1" ≠ .ok "" := by
  refine ⟨by decide!, rfl, by decide!, by decide!, by decide!⟩

/-- C14 amended: for an entry written by `write` at the clock value `t` under a
TTL `d > 0`, `read` returns its value after any sweeps whose clock values are at
most `t + d`; and the loop of a sweep whose clock value is at most `t + d`
(`t + d` included) takes no deleting path for what is stored for the key. The
codec is assumed to decode the entry from its encoding. -/
theorem entry_kept_until_ttl (bc : BoltConfig) (codec : EntryCodec) (faults f3 : TxFaults)
    (t : Int) (db db1 : BoltDB) (k v : String) (sweeps : List (TxFaults × Int × Nat))
    (hcodec : ∀ data, codec.Marshal { CRC32 := v, Timestamp := t } = .ok data →
      codec.Unmarshal data = .ok { CRC32 := v, Timestamp := t })
    (hd : 0 < bc.Expire)
    (hw : bc.write codec faults t db k v = (none, db1))
    (h3 : f3.begin = none)
    (hs : ∀ s ∈ sweeps, s.2.1 ≤ t + bc.Expire) :
    bc.read codec f3 (runSweeps bc codec sweeps db1) k = .ok v ∧
    (∃ data, db1.stored (utf8Bytes k) = some data ∧
      (runSweeps bc codec sweeps db1).stored (utf8Bytes k) = some data ∧
      (∀ now, now ≤ t + bc.Expire → sweepDeletes codec now bc.Expire data = false) ∧
      ∀ s ∈ sweeps, sweepDeletes codec s.2.1 bc.Expire data = false) := by
  obtain ⟨b, data, hb, hm, hdb1⟩ := write_ok bc codec faults t db db1 k v hw
  have hdec := hcodec data hm
  have hkeep : ∀ now, now ≤ t + bc.Expire → sweepDeletes codec now bc.Expire data = false := by
    intro now hnow
    have := timeSub_le now t bc.Expire hd hnow
    simp only [sweepDeletes, hdec, decide_eq_false_iff_not]
    omega
  have hst : db1.stored (utf8Bytes k) = some data := by
    rw [hdb1]
    simp [BoltDB.stored, bucketGet_bucketPut_same]
  rw [runSweeps_unchanged]
  refine ⟨?_, data, hst, hst, hkeep, fun s hsm => hkeep _ (hs s hsm)⟩
  rw [read_of_bucket bc codec f3 db1 (bucketPut (utf8Bytes k) data b) k h3 (by rw [hdb1]),
    bucketGet_bucketPut_same]
  simp [hdec]

/-- Witness of the amended C14: the entry written at 100 under the TTL 50, with
sweeps at the clock values 120 and 150. -/
theorem entry_kept_until_ttl_witness :
    (∀ data, sampleCodec.Marshal { CRC32 := "3089d15e", Timestamp := 100 } = .ok data →
      sampleCodec.Unmarshal data = .ok { CRC32 := "3089d15e", Timestamp := 100 }) ∧
    0 < sampleBolt.Expire ∧
    sampleBolt.write sampleCodec noFaults 100 emptyDB "c1" "3089d15e" = (none, dbW) ∧
    noFaults.begin = none ∧
    (∀ s ∈ [(noFaults, (120 : Int), 5), (noFaults, (150 : Int), 5)],
      s.2.1 ≤ 100 + sampleBolt.Expire) ∧
    (sampleBolt.read sampleCodec noFaults
        (runSweeps sampleBolt sampleCodec [(noFaults, 120, 5), (noFaults, 150, 5)] dbW) "c1"
        = .ok "3089d15e" ∧
      (∃ data, dbW.stored (utf8Bytes "c1") = some data ∧
        (runSweeps sampleBolt sampleCodec [(noFaults, 120, 5), (noFaults, 150, 5)] dbW).stored
          (utf8Bytes "c1") = some data ∧
        (∀ now, now ≤ 100 + sampleBolt.Expire →
          sweepDeletes sampleCodec now sampleBolt.Expire data = false) ∧
        ∀ s ∈ [(noFaults, (120 : Int), 5), (noFaults, (150 : Int), 5)],
          sweepDeletes sampleCodec s.2.1 sampleBolt.Expire data = false)) :=
  have hc : ∀ data, sampleCodec.Marshal { CRC32 := "3089d15e", Timestamp := 100 } = .ok data →
      sampleCodec.Unmarshal data = .ok { CRC32 := "3089d15e", Timestamp := 100 } := by
    intro data h
    cases h
    decide!
  have hs : ∀ s ∈ [(noFaults, (120 : Int), 5), (noFaults, (150 : Int), 5)],
      s.2.1 ≤ 100 + sampleBolt.Expire := by
    intro s hsm
    simp only [List.mem_cons, List.mem_singleton, List.not_mem_nil, or_false] at hsm
    rcases hsm with h | h <;> rw [h] <;> decide
  ⟨hc, by decide, by decide!, rfl, hs,
   entry_kept_until_ttl sampleBolt sampleCodec noFaults noFaults 100 emptyDB dbW "c1"
     "3089d15e" [(noFaults, 120, 5), (noFaults, 150, 5)] hc (by decide) (by decide!) rfl hs⟩


/-! ## Theorems: the end of a request -/

/-- C17: in both outcomes the transcript afterwards is the transcript before
with one message appended, whose role is `assistant`, and the accumulator
`messages` of the writer is empty afterwards; after `Completed` the content of
the appended message is the captured text; after `Cancelled` it is the fallback
text followed by the identifier, so it ends with the identifier and is the same
whatever had been captured. -/
theorem finalize_appends_one {σ : Type} (outcome : Outcome) (id : String)
    (cw : CaptureWriter σ) (T : List Message) :
    (∃ content, (finalize outcome id cw T).2 = T ++ [{ Role := "assistant", Content := content }] ∧
      (outcome = .Completed → content = cw.messages) ∧
      (outcome = .Cancelled → content = fallbackText ++ id ∧
        id.toList <:+ content.toList)) ∧
    (finalize outcome id cw T).2.length = T.length + 1 ∧
    (finalize outcome id cw T).2.take T.length = T ∧
    (finalize outcome id cw T).1.messages = "" ∧
    (∀ cw2 : CaptureWriter σ,
      (finalize .Cancelled id cw2 T).2 = (finalize .Cancelled id cw T).2) := by
  cases outcome with
  | Completed =>
    refine ⟨⟨cw.messages, rfl, fun _ => rfl, fun h => (by cases h)⟩, ?_, ?_, rfl, fun _ => ?_⟩
    · simp [finalize]
    · simp [finalize]
    · simp [finalize]
  | Cancelled =>
    refine ⟨⟨fallbackText ++ id, ?_, fun h => (by cases h), fun _ => ⟨rfl, ?_⟩⟩, ?_, ?_, rfl,
      fun _ => ?_⟩
    · simp [finalize]
    · exact ⟨fallbackText.toList, by simp⟩
    · simp [finalize]
    · simp [finalize]
    · simp [finalize]

/-- Witness of C17: a writer that has captured `partial answer`, for the
transcript [user "hi"] and the identifier `1b4e28ba`. -/
theorem finalize_appends_one_witness :
    ((∃ content, (finalize .Cancelled "1b4e28ba" busyWriter [⟨"user", "hi"⟩]).2 =
          [⟨"user", "hi"⟩] ++ [{ Role := "assistant", Content := content }] ∧
        (Outcome.Cancelled = .Completed → content = busyWriter.messages) ∧
        (Outcome.Cancelled = .Cancelled → content = fallbackText ++ "1b4e28ba" ∧
          "1b4e28ba".toList <:+ content.toList)) ∧
      (finalize .Cancelled "1b4e28ba" busyWriter [⟨"user", "hi"⟩]).2.length
        = [(⟨"user", "hi"⟩ : Message)].length + 1 ∧
      (finalize .Cancelled "1b4e28ba" busyWriter [⟨"user", "hi"⟩]).2.take
        [(⟨"user", "hi"⟩ : Message)].length = [⟨"user", "hi"⟩] ∧
      (finalize .Cancelled "1b4e28ba" busyWriter [⟨"user", "hi"⟩]).1.messages = "" ∧
      (∀ cw2 : CaptureWriter (String × List (List UInt8)),
        (finalize .Cancelled "1b4e28ba" cw2 [⟨"user", "hi"⟩]).2 =
          (finalize .Cancelled "1b4e28ba" busyWriter [⟨"user", "hi"⟩]).2)) ∧
    (finalize .Completed "1b4e28ba" busyWriter [⟨"user", "hi"⟩]).2 =
      [⟨"user", "hi"⟩, ⟨"assistant", "partial answer"⟩] ∧
    (finalize .Cancelled "1b4e28ba" busyWriter [⟨"user", "hi"⟩]).2 =
      [⟨"user", "hi"⟩, ⟨"assistant", fallbackText ++ "1b4e28ba"⟩] :=
  ⟨finalize_appends_one .Cancelled "1b4e28ba" busyWriter [⟨"user", "hi"⟩],
   by decide!, by decide!⟩

/-! ## Theorems: the retained buffer -/

/-- The separator stands at the position `bytes.Index` returns. -/
theorem bytesIndex_occurrence (sep : List UInt8) :
    ∀ (s : List UInt8) (m : Nat), bytesIndex sep s = some m →
      s = s.take m ++ sep ++ s.drop (m + sep.length) := by
  intro s
  induction s with
  | nil =>
    intro m h
    cases sep with
    | nil => simp
    | cons c cs => simp [bytesIndex] at h
  | cons c rest ih =>
    intro m h
    rw [bytesIndex] at h
    by_cases hp : sep.isPrefixOf (c :: rest) = true
    · simp only [hp, if_true] at h
      have hm : m = 0 := by injection h with h; exact h.symm
      subst hm
      obtain ⟨t, ht⟩ := List.isPrefixOf_iff_prefix.1 hp
      simp only [List.take_zero, List.nil_append, Nat.zero_add]
      rw [← ht]
      simp
    · simp only [hp] at h
      cases hr : bytesIndex sep rest with
      | none => simp [hr] at h
      | some k =>
        simp [hr] at h
        subst h
        have := ih k hr
        have e : k + 1 + sep.length = (k + sep.length) + 1 := by omega
        rw [e]
        simp only [List.take_succ_cons, List.drop_succ_cons, List.cons_append]
        rw [← this]

/-- The last piece of a split holds no separator. -/
theorem bytesSplit_last_no_sep (sep : List UInt8) (hsep : sep ≠ []) :
    ∀ (n : Nat) (s : List UInt8), s.length ≤ n →
      bytesIndex sep ((bytesSplit s sep).getLastD []) = none := by
  have hpos : 1 ≤ sep.length := by
    cases sep with
    | nil => exact absurd rfl hsep
    | cons c cs => simp
  intro n
  induction n with
  | zero =>
    intro s hs
    have : s = [] := List.length_eq_zero.1 (by omega)
    subst this
    rw [bytesSplit_unfold sep hsep []]
    cases sep with
    | nil => exact absurd rfl hsep
    | cons c cs => simp [bytesIndex]
  | succ n ih =>
    intro s hs
    rw [bytesSplit_unfold sep hsep s]
    cases hi : bytesIndex sep s with
    | none => simpa using hi
    | some k =>
      have hb := bytesIndex_bound sep s k hi
      have hne := bytesSplit_ne_nil sep hsep (s.drop (k + sep.length))
      have := ih (s.drop (k + sep.length)) (by simp; omega)
      simp only
      cases hsp : bytesSplit (s.drop (k + sep.length)) sep with
      | nil => exact absurd hsp hne
      | cons x xs =>
        rw [hsp] at this
        simpa [List.getLastD] using this

/-- The bytes split are the complete pieces, each followed by the separator,
and then the last piece. -/
theorem bytesSplit_rebuild (sep : List UInt8) (hsep : sep ≠ []) :
    ∀ (n : Nat) (s : List UInt8), s.length ≤ n →
      s = ((bytesSplit s sep).dropLast.map (fun piece => piece ++ sep)).flatten ++
        (bytesSplit s sep).getLastD [] := by
  have hpos : 1 ≤ sep.length := by
    cases sep with
    | nil => exact absurd rfl hsep
    | cons c cs => simp
  intro n
  induction n with
  | zero =>
    intro s hs
    have : s = [] := List.length_eq_zero.1 (by omega)
    subst this
    rw [bytesSplit_unfold sep hsep []]
    cases sep with
    | nil => exact absurd rfl hsep
    | cons c cs => simp [bytesIndex]
  | succ n ih =>
    intro s hs
    rw [bytesSplit_unfold sep hsep s]
    cases hi : bytesIndex sep s with
    | none => simp
    | some k =>
      have hb := bytesIndex_bound sep s k hi
      have hocc := bytesIndex_occurrence sep s k hi
      have hne := bytesSplit_ne_nil sep hsep (s.drop (k + sep.length))
      have := ih (s.drop (k + sep.length)) (by simp; omega)
      simp only
      cases hsp : bytesSplit (s.drop (k + sep.length)) sep with
      | nil => exact absurd hsp hne
      | cons x xs =>
        rw [hsp] at this
        have e1 : (s.take k :: x :: xs).dropLast = s.take k :: (x :: xs).dropLast := rfl
        have e2 : (s.take k :: x :: xs).getLastD [] = (x :: xs).getLastD [] := rfl
        rw [e1, e2, List.map_cons, List.flatten_cons, List.append_assoc, ← this]
        exact hocc

theorem writeAll_contentType {σ : Type} (lib : Lib) (rw : GinResponseWriter σ)
    (hkeep : ∀ s d, rw.ContentType (rw.Write s d).1 = rw.ContentType s) :
    ∀ (chunks : List (List UInt8)) (w : CaptureWriter σ),
      rw.ContentType (CaptureWriter.writeAll lib rw w chunks).ResponseWriter =
        rw.ContentType w.ResponseWriter := by
  intro chunks
  induction chunks with
  | nil => intro w; rfl
  | cons c cs ih =>
    intro w
    have hrw : (CaptureWriter.Write lib rw w c).1.ResponseWriter =
        (rw.Write w.ResponseWriter c).1 := by
      simp [CaptureWriter.Write, capture_ResponseWriter]
    have := ih (CaptureWriter.Write lib rw w c).1
    rw [hrw, hkeep] at this
    simpa [CaptureWriter.writeAll] using this

/-- C18: after any sequence of writes to a fresh event-stream writer, the
retained buffer is the piece that follows the last delimiter found by the split
of everything written (the bytes written are the complete events, each followed
by the delimiter, and then the buffer; it is all of them when they hold no
delimiter) and holds no delimiter; the assembled text is the text of the
complete events only, so what the buffer holds is not in it; and a further write
of `c` adds the text of the events completed in the buffer followed by `c`. -/
theorem retained_buffer {σ : Type} (lib : Lib) (rw : GinResponseWriter σ) (s0 : σ)
    (chunks : List (List UInt8))
    (h0 : stringsHasPrefix (rw.ContentType s0) "text/event-stream" = true)
    (hkeep : ∀ s d, rw.ContentType (rw.Write s d).1 = rw.ContentType s) :
    (CaptureWriter.writeAll lib rw (CaptureWriter.fresh s0) chunks).streamBuffer =
      (bytesSplit chunks.flatten (ascii "\n\n")).getLastD [] ∧
    bytesIndex (ascii "\n\n")
      (CaptureWriter.writeAll lib rw (CaptureWriter.fresh s0) chunks).streamBuffer = none ∧
    chunks.flatten =
      ((completeEvents chunks.flatten).map (fun event => event ++ ascii "\n\n")).flatten ++
        (CaptureWriter.writeAll lib rw (CaptureWriter.fresh s0) chunks).streamBuffer ∧
    (bytesIndex (ascii "\n\n") chunks.flatten = none →
      (CaptureWriter.writeAll lib rw (CaptureWriter.fresh s0) chunks).streamBuffer =
        chunks.flatten) ∧
    (CaptureWriter.writeAll lib rw (CaptureWriter.fresh s0) chunks).messages =
      String.join ((completeEvents chunks.flatten).map (segmentText lib)) ∧
    (∀ c : List UInt8,
      (CaptureWriter.Write lib rw
          (CaptureWriter.writeAll lib rw (CaptureWriter.fresh s0) chunks) c).1.messages =
        (CaptureWriter.writeAll lib rw (CaptureWriter.fresh s0) chunks).messages ++
          assembledText lib
            ((CaptureWriter.writeAll lib rw (CaptureWriter.fresh s0) chunks).streamBuffer
              ++ c)) := by
  have hfresh : (bytesSplit [] (ascii "\n\n")) = [[]] := by decide
  obtain ⟨hm, hb⟩ := writeAll_stream lib rw hkeep chunks (CaptureWriter.fresh s0) [] h0
    (by simp [completeEvents, hfresh, CaptureWriter.fresh])
    (by simp [hfresh, CaptureWriter.fresh])
  rw [List.nil_append] at hm hb
  have hct : stringsHasPrefix (rw.ContentType
      (CaptureWriter.writeAll lib rw (CaptureWriter.fresh s0) chunks).ResponseWriter)
      "text/event-stream" = true := by
    rw [writeAll_contentType lib rw hkeep]
    exact h0
  refine ⟨hb, ?_, ?_, ?_, ?_, ?_⟩
  · rw [hb]
    exact bytesSplit_last_no_sep (ascii "\n\n") sep_ne_nil _ _ le_rfl
  · rw [hb, completeEvents]
    exact bytesSplit_rebuild (ascii "\n\n") sep_ne_nil _ _ le_rfl
  · intro hnone
    rw [hb, bytesSplit_unfold (ascii "\n\n") sep_ne_nil, hnone]
    rfl
  · rw [hm, foldl_processEvent]
    simp
  · intro c
    obtain ⟨sm, _, _⟩ := Write_stream lib rw
      (CaptureWriter.writeAll lib rw (CaptureWriter.fresh s0) chunks) c hct
    rw [sm, foldl_processEvent]
    rfl

/-- Witness of C18: two events written in two chunks, the second event without
its delimiter: the text of the first event is assembled, the second event stays
in the buffer and its content `there` is only assembled when a delimiter
follows. -/
theorem retained_buffer_witness :
    stringsHasPrefix (recorder.ContentType ("text/event-stream", [])) "text/event-stream"
      = true ∧
    (CaptureWriter.writeAll modelLib recorder (CaptureWriter.fresh ("text/event-stream", []))
        [ascii "data: \x7b\"choices\":[\x7b\"delta\":\x7b\"content\":\"Hi \"\x7d\x7d]\x7d\n\nda",
         ascii "ta: \x7b\"choices\":[\x7b\"delta\":\x7b\"content\":\"there\"\x7d\x7d]\x7d"]).messages
      = "Hi " ∧
    (CaptureWriter.writeAll modelLib recorder (CaptureWriter.fresh ("text/event-stream", []))
        [ascii "data: \x7b\"choices\":[\x7b\"delta\":\x7b\"content\":\"Hi \"\x7d\x7d]\x7d\n\nda",
         ascii "ta: \x7b\"choices\":[\x7b\"delta\":\x7b\"content\":\"there\"\x7d\x7d]\x7d"]).streamBuffer
      = ascii "data: \x7b\"choices\":[\x7b\"delta\":\x7b\"content\":\"there\"\x7d\x7d]\x7d" ∧
    segmentText modelLib
        (ascii "data: \x7b\"choices\":[\x7b\"delta\":\x7b\"content\":\"there\"\x7d\x7d]\x7d")
      = "there" ∧
    (CaptureWriter.writeAll modelLib recorder (CaptureWriter.fresh ("text/event-stream", []))
        [ascii "data: \x7b\"choices\":[\x7b\"delta\":\x7b\"content\":\"Hi \"\x7d\x7d]\x7d\n\nda",
         ascii "ta: \x7b\"choices\":[\x7b\"delta\":\x7b\"content\":\"there\"\x7d\x7d]\x7d",
         ascii "\n\n"]).messages = "Hi there" ∧
    bytesIndex (ascii "\n\n")
      (CaptureWriter.writeAll modelLib recorder (CaptureWriter.fresh ("text/event-stream", []))
        [ascii "data: \x7b\"choices\":[\x7b\"delta\":\x7b\"content\":\"Hi \"\x7d\x7d]\x7d\n\nda",
         ascii "ta: \x7b\"choices\":[\x7b\"delta\":\x7b\"content\":\"there\"\x7d\x7d]\x7d"]).streamBuffer
      = none :=
  ⟨by decide, by decide!, by decide!, by decide!, by decide!,
   (retained_buffer modelLib recorder ("text/event-stream", [])
     [ascii "data: \x7b\"choices\":[\x7b\"delta\":\x7b\"content\":\"Hi \"\x7d\x7d]\x7d\n\nda",
      ascii "ta: \x7b\"choices\":[\x7b\"delta\":\x7b\"content\":\"there\"\x7d\x7d]\x7d"]
     (by decide) (fun _ _ => rfl)).2.1⟩


/-! ## Theorems: validity and exchanges -/

theorem turnRole_ne : turnRole true ≠ turnRole false := by decide

theorem alternationLoop_append (l r : List Message) : ∀ b : Bool,
    alternationLoop (turnRole b) (l ++ r) =
      (alternationLoop (turnRole b) l &&
        alternationLoop (turnRole (if l.length % 2 = 0 then b else !b)) r) := by
  induction l with
  | nil => intro b; simp [alternationLoop]
  | cons x xs ih =>
    intro b
    rw [List.cons_append, alternationLoop, alternationLoop, turnRole_toggle]
    by_cases hx : x.Role = turnRole b
    · simp only [hx, bne_self_eq_false, Bool.false_eq_true, if_false]
      rw [ih (!b)]
      congr 2
      rcases Nat.mod_two_eq_zero_or_one xs.length with h | h
      · have : (xs.length + 1) % 2 = 1 := by omega
        simp [h, this]
      · have : (xs.length + 1) % 2 = 0 := by omega
        simp [h, this]
    · have : (x.Role != turnRole b) = true := by simpa using hx
      simp [this]

theorem alternationLoop_last (l : List Message) (b : Bool) (m : Message)
    (h : alternationLoop (turnRole b) l = true) (hl : l.getLast? = some m) :
    m.Role = turnRole (if (l.length - 1) % 2 = 0 then b else !b) := by
  have := (alternationLoop_iff b l).1 h (l.length - 1) m
    (by rw [← hl, List.getLast?_eq_getElem?])
  exact this

theorem afterSystem_append (T X : List Message) (h : T ≠ []) :
    afterSystem (T ++ X) = afterSystem T ++ X := by
  cases T with
  | nil => exact absurd rfl h
  | cons m0 rest =>
    unfold afterSystem
    have : roleAt (m0 :: rest ++ X) 0 = roleAt (m0 :: rest) 0 := by simp [roleAt]
    rw [this]
    split <;> simp

theorem systemAfterFirst_append (T X : List Message) (h : T ≠ []) :
    systemAfterFirst (T ++ X) =
      (systemAfterFirst T || X.any (fun m => m.Role == "system")) := by
  cases T with
  | nil => exact absurd rfl h
  | cons m0 rest => simp [systemAfterFirst, List.any_append]

theorem getLast?_afterSystem (T : List Message) (m : Message)
    (hl : T.getLast? = some m) (hm : m.Role = "user") :
    (afterSystem T).getLast? = some m := by
  unfold afterSystem
  split
  · rename_i hs
    cases T with
    | nil => simp at hl
    | cons m0 rest =>
      cases rest with
      | nil =>
        simp at hl
        rw [← hl] at hm
        simp [roleAt] at hs
        rw [hs] at hm
        exact absurd hm (by decide)
      | cons m1 rest2 =>
        simpa [List.getLast?_cons_cons] using hl
  · exact hl

/-- What validity gives: the messages after the optional system message
alternate from `user`, are odd in number and end with the last message of the
transcript, a `user` message. -/
theorem valid_facts (T : List Message) (h : validateMessages T = true) :
    T ≠ [] ∧ systemAfterFirst T = false ∧
    alternationLoop (turnRole true) (afterSystem T) = true ∧
    (afterSystem T).length % 2 = 1 ∧
    ∃ m, T.getLast? = some m ∧ m.Role = "user" := by
  obtain ⟨hne, hsys, halt, hlast⟩ := (validateMessages_iff_loop T).1 h
  obtain ⟨m, hl, hm⟩ := (roleAt_last T "user" hne).1 hlast
  have hU := getLast?_afterSystem T m hl hm
  have halt' : alternationLoop (turnRole true) (afterSystem T) = true := halt
  have hrole := alternationLoop_last (afterSystem T) true m halt' hU
  have hpos : 0 < (afterSystem T).length := by
    cases hA : afterSystem T with
    | nil => rw [hA] at hU; simp at hU
    | cons x xs => simp
  refine ⟨hne, hsys, halt', ?_, m, hl, hm⟩
  by_cases hpar : ((afterSystem T).length - 1) % 2 = 0
  · omega
  · rw [if_neg hpar, hm] at hrole
    exact absurd hrole (by decide)

theorem valid_of_facts (T : List Message) (hne : T ≠ []) (hsys : systemAfterFirst T = false)
    (halt : alternationLoop (turnRole true) (afterSystem T) = true)
    (hlast : ∃ m, T.getLast? = some m ∧ m.Role = "user") :
    validateMessages T = true :=
  (validateMessages_iff_loop T).2 ⟨hne, hsys, halt, (roleAt_last T "user" hne).2 hlast⟩

theorem filter_nonsystem (T : List Message) (hne : T ≠ [])
    (hsys : systemAfterFirst T = false) :
    T.filter (fun m => m.Role != "system") = afterSystem T := by
  cases T with
  | nil => exact absurd rfl hne
  | cons m0 rest =>
    have hall : ∀ m ∈ rest, (m.Role != "system") = true := by
      intro m hm
      have : ¬ (rest.any (fun m => m.Role == "system") = true) := by
        simpa [systemAfterFirst] using hsys
      by_contra hcon
      exact this (List.any_eq_true.2 ⟨m, hm, by simpa using hcon⟩)
    have hrest : rest.filter (fun m => m.Role != "system") = rest :=
      List.filter_eq_self.2 hall
    unfold afterSystem
    by_cases h0 : m0.Role = "system"
    · simp [roleAt, h0, List.filter_cons, hrest]
    · have hb : (m0.Role != "system") = true := by simpa using h0
      simp only [roleAt, List.getElem?_cons_zero, h0, if_false]
      rw [List.filter_cons, if_pos hb, hrest]

theorem getLast?_afterSystem_of_ne_nil (T : List Message) (h : afterSystem T ≠ []) :
    (afterSystem T).getLast? = T.getLast? := by
  unfold afterSystem at h ⊢
  split
  · rename_i hs
    rw [if_pos hs] at h
    cases T with
    | nil => simp at h
    | cons m0 rest =>
      cases rest with
      | nil => simp at h
      | cons m1 rest2 => simp [List.getLast?_cons_cons]
  · rfl

theorem eq_dropLast_dropLast_append (l : List Message) (h : 2 ≤ l.length) :
    ∃ x y, l = l.dropLast.dropLast ++ [x, y] := by
  have h1 : l ≠ [] := by
    intro e; rw [e] at h; simp at h
  have h2 : l.dropLast ≠ [] := by
    intro e
    have := congrArg List.length e
    simp at this
    omega
  refine ⟨l.dropLast.getLast h2, l.getLast h1, ?_⟩
  have e1 := List.dropLast_append_getLast h1
  have e2 := List.dropLast_append_getLast h2
  calc l = l.dropLast ++ [l.getLast h1] := e1.symm
    _ = (l.dropLast.dropLast ++ [l.dropLast.getLast h2]) ++ [l.getLast h1] := by rw [e2]
    _ = l.dropLast.dropLast ++ [l.dropLast.getLast h2, l.getLast h1] := by simp

/-- C20: a transcript accepted by `validateMessages` stays accepted when an
assistant message and then a user message are appended, and is rejected when
only an assistant message or only a user message is appended; an accepted
transcript has an odd number of non-system messages; and an accepted transcript
with at least three non-system messages is still accepted without its last two
messages. -/
theorem validity_closed_under_exchange (T : List Message) (a u : String)
    (h : validateMessages T = true) :
    validateMessages (T ++ [⟨"assistant", a⟩, ⟨"user", u⟩]) = true ∧
    validateMessages (T ++ [⟨"assistant", a⟩]) = false ∧
    validateMessages (T ++ [⟨"user", u⟩]) = false ∧
    (T.filter (fun m => m.Role != "system")).length % 2 = 1 ∧
    (3 ≤ (T.filter (fun m => m.Role != "system")).length →
      validateMessages T.dropLast.dropLast = true) := by
  obtain ⟨hne, hsys, halt, hodd, m, hl, hm⟩ := valid_facts T h
  have hpar : ¬ (afterSystem T).length % 2 = 0 := by omega
  refine ⟨?_, ?_, ?_, ?_, ?_⟩
  · apply valid_of_facts
    · simp
    · rw [systemAfterFirst_append _ _ hne, hsys]
      simp
    · rw [afterSystem_append _ _ hne, alternationLoop_append, halt, if_neg hpar]
      simp [alternationLoop, turnRole]
    · exact ⟨⟨"user", u⟩, by simp, rfl⟩
  · rw [Bool.eq_false_iff]
    intro hv
    obtain ⟨_, _, _, _, m2, hl2, hm2⟩ := valid_facts _ hv
    rw [List.getLast?_append_of_ne_nil _ (by simp)] at hl2
    simp at hl2
    rw [← hl2] at hm2
    simp at hm2
  · rw [Bool.eq_false_iff]
    intro hv
    obtain ⟨_, _, halt2, _, _⟩ := valid_facts _ hv
    rw [afterSystem_append _ _ hne, alternationLoop_append, halt, if_neg hpar] at halt2
    simp [alternationLoop, turnRole] at halt2
  · rw [filter_nonsystem T hne hsys]
    exact hodd
  · rw [filter_nonsystem T hne hsys]
    intro h3
    have hlenU : (afterSystem T).length ≤ T.length := by
      unfold afterSystem
      split <;> simp
    obtain ⟨x, y, hT⟩ := eq_dropLast_dropLast_append T (by omega)
    have hlen0 : T.dropLast.dropLast.length = T.length - 2 := by simp; omega
    have hne0 : T.dropLast.dropLast ≠ [] := by
      intro e
      rw [e] at hlen0
      simp at hlen0
      omega
    have hsys0 : systemAfterFirst T.dropLast.dropLast = false := by
      have := hsys
      rw [hT, systemAfterFirst_append _ _ hne0] at this
      simp only [Bool.or_eq_false_iff] at this
      exact this.1
    have hA : afterSystem T = afterSystem T.dropLast.dropLast ++ [x, y] := by
      conv_lhs => rw [hT]
      exact afterSystem_append _ _ hne0
    have halt0 : alternationLoop (turnRole true) (afterSystem T.dropLast.dropLast) = true := by
      have := halt
      rw [hA, alternationLoop_append] at this
      simp only [Bool.and_eq_true] at this
      exact this.1
    have hlenU0 : (afterSystem T.dropLast.dropLast).length + 2 = (afterSystem T).length := by
      rw [hA]; simp
    have hneU0 : afterSystem T.dropLast.dropLast ≠ [] := by
      intro e
      rw [e] at hlenU0
      simp at hlenU0
      omega
    obtain ⟨m0, hm0⟩ : ∃ m0, T.dropLast.dropLast.getLast? = some m0 := by
      cases hg : T.dropLast.dropLast.getLast? with
      | none => exact absurd (List.getLast?_eq_none_iff.1 hg) hne0
      | some m0 => exact ⟨m0, rfl⟩
    have hrole := alternationLoop_last (afterSystem T.dropLast.dropLast) true m0 halt0
      (by rw [getLast?_afterSystem_of_ne_nil _ hneU0, hm0])
    have hpar0 : ((afterSystem T.dropLast.dropLast).length - 1) % 2 = 0 := by omega
    rw [if_pos hpar0] at hrole
    exact valid_of_facts _ hne0 hsys0 halt0 ⟨m0, hm0, hrole⟩

/-- Witness of C20: the transcript [system, user, assistant, user]. -/
theorem validity_closed_under_exchange_witness :
    validateMessages [msg "system", msg "user", msg "assistant", msg "user"] = true ∧
    (validateMessages ([msg "system", msg "user", msg "assistant", msg "user"] ++
        [⟨"assistant", "a"⟩, ⟨"user", "u"⟩]) = true ∧
      validateMessages ([msg "system", msg "user", msg "assistant", msg "user"] ++
        [⟨"assistant", "a"⟩]) = false ∧
      validateMessages ([msg "system", msg "user", msg "assistant", msg "user"] ++
        [⟨"user", "u"⟩]) = false ∧
      (([msg "system", msg "user", msg "assistant", msg "user"]).filter
        (fun m => m.Role != "system")).length % 2 = 1 ∧
      (3 ≤ (([msg "system", msg "user", msg "assistant", msg "user"]).filter
          (fun m => m.Role != "system")).length →
        validateMessages
          ([msg "system", msg "user", msg "assistant", msg "user"]).dropLast.dropLast = true)) ∧
    ([msg "system", msg "user", msg "assistant", msg "user"]).dropLast.dropLast =
      [msg "system", msg "user"] ∧
    (([msg "system", msg "user", msg "assistant", msg "user"]).filter
      (fun m => m.Role != "system")).length = 3 :=
  ⟨by decide,
   validity_closed_under_exchange [msg "system", msg "user", msg "assistant", msg "user"]
     "a" "u" (by decide),
   by decide, by decide⟩


end Conversation2API
